import Mathlib

/-!
Verification development for the VOD catalog reconciliation engine of
ViniPlay (source file src/vodProcessor.js, functions refreshVodContent and
processM3uVod).  The JavaScript code is shallowly embedded: the sqlite store
becomes an explicit record of table contents, each write phase becomes a pure
function on that record, a transaction is a body returning Option (none on a
failed write, in which case ROLLBACK restores the store that was current at
BEGIN), and feed fetches become Except values.  All definitions are
executable and translated line by line from the source; the few places where
the deciding code lives outside src (the sqlite schema, the promisified db
helpers, the JS Date builtin) carry a doc comment starting with
"Modelled from the spec:".
-/

namespace ViniPlay

/-! ## Basic JS-semantics helpers -/

/-- Last-wins lookup in an association list, the semantics of lookup in a JS
Map built by repeated set calls and of property access on a JS object. -/
def jsGet {β : Type} (m : List (String × β)) (k : String) : Option β :=
  m.foldr
    (fun p acc =>
      match acc with
      | some v => some v
      | none => if p.1 = k then some p.2 else none)
    none

/-- Map.set appends an entry; jsGet gives it precedence over earlier ones. -/
def jsSet {β : Type} (m : List (String × β)) (k : String) (v : β) :
    List (String × β) :=
  m ++ [(k, v)]

/-- Truthiness of an optional JS string: undefined, null and the empty string
are falsy. -/
def strTruthy : Option String → Bool
  | none => false
  | some s => s ≠ ""

/-! ## Year derivation (vodProcessor.js lines 117-122 and 178-183) -/

def digitVal (c : Char) : Nat := c.toNat - 48

/-- First match of the regex for a parenthesised four-digit year token,
scanning left to right exactly as the JS regex engine does: at each start
position the literal open parenthesis, four digit characters and the literal
close parenthesis must follow, otherwise the scan restarts one character
further right. -/
def extractYear4 : List Char → Option Nat
  | [] => none
  | c :: rest =>
    if c = '(' then
      match rest with
      | a :: b :: x :: y :: ')' :: _ =>
        if a.isDigit && b.isDigit && x.isDigit && y.isDigit then
          some (1000 * digitVal a + 100 * digitVal b + 10 * digitVal x +
            digitVal y)
        else extractYear4 rest
      | _ => extractYear4 rest
    else extractYear4 rest

/-- Year taken from a parenthesised token in the display name, applied only
when the name is truthy (lines 119-122). -/
def nameYearTok (name : Option String) : Option Int :=
  match name with
  | none => none
  | some n => if n = "" then none else (extractYear4 n.data).map Int.ofNat

def leadDigits : List Char → Nat → Nat
  | c :: rest, acc => if c.isDigit then leadDigits rest (10 * acc + digitVal c) else acc
  | [], acc => acc

/-- Modelled from the spec: the calendar year of an explicit release-date
field (the JS builtin chain new Date(s).getFullYear(), which is not repo
code) is the leading digit run of the ISO date string. -/
def dateFullYear (s : String) : Int := Int.ofNat (leadDigits s.data 0)

/-- Year derivation of lines 117-122: an explicit truthy releaseDate wins,
else a four-digit token in a truthy name, else null. -/
def deriveYear (releaseDate name : Option String) : Option Int :=
  match releaseDate with
  | some rd => if rd = "" then nameYearTok name else some (dateFullYear rd)
  | none => nameYearTok name

/-! ## Provider-unique ids (lines 116 and 177) -/

/-- The composite key written by the template literals
movie_(providerId)_(stream_id) and series_(providerId)_(series_id). -/
def puid (kind : String) (providerId : Nat) (nativeId : String) : String :=
  kind ++ "_" ++ toString providerId ++ "_" ++ nativeId

/-! ## Categories (lines 51-92) -/

/-- A provider category row as consumed by the merge; ids and names are
strings, with the empty string standing for a falsy value. -/
structure Category where
  category_id : String
  category_name : String
deriving DecidableEq, Repr

/-- Assignment to a JS object property: overwrite the value in place when the
key exists, otherwise append the new key. -/
def objInsert (m : List (String × Category)) (c : Category) :
    List (String × Category) :=
  if m.any (fun p => p.1 == c.category_id) then
    m.map (fun p => if p.1 == c.category_id then (p.1, c) else p)
  else
    m ++ [(c.category_id, c)]

/-- The merged allCategories object of lines 58-64: all VOD entries are
assigned first, then all Series entries. -/
def allCategoriesOf (vodCats seriesCats : List Category) :
    List (String × Category) :=
  seriesCats.foldl objInsert (vodCats.foldl objInsert [])

/-- The in-memory category map lookup with a per-kind fallback label
(lines 123 and 184): a missing or falsy name falls back to the default. -/
def catLookup (cm : List (String × String)) (cid : Option String)
    (dflt : String) : String :=
  match cid with
  | none => dflt
  | some c =>
    match jsGet cm c with
    | some n => if n = "" then dflt else n
    | none => dflt

/-! ## Store data model

The movies and series tables have the same columns
(id, name, year, description, logo, category_name, provider_unique_id),
as witnessed by the INSERT and UPDATE statements of both phases, so one
entity row type serves both. -/

structure Entity where
  id : Nat
  name : Option String
  year : Option Int
  description : Option String
  logo : Option String
  category_name : Option String
  provider_unique_id : Option String
deriving DecidableEq, Repr

/-- A row of provider_movie_relations / provider_series_relations /
provider_episode_relations.  For movies native_id is the stream_id and extra
the container_extension; for series native_id is the external_series_id and
extra is absent; for episodes only provider_id, entity_id and last_seen are
exercised by this source file.  Timestamps are Nat (ISO strings compare
chronologically, so the order embeds). -/
structure Rel where
  provider_id : Nat
  entity_id : Nat
  native_id : String
  extra : Option String
  last_seen : Nat
deriving DecidableEq, Repr

/-- The persistent store: all tables touched by vodProcessor.js, plus the
next autoincrement id of the two entity tables. -/
structure Store where
  movies : List Entity
  series : List Entity
  episodes : List Nat
  movieRels : List Rel
  seriesRels : List Rel
  episodeRels : List Rel
  vodCategories : List (String × String)
  nextMovieId : Nat
  nextSeriesId : Nat
deriving DecidableEq, Repr

/-! ## The entity upsert loop (lines 112-143 and 173-204)

Both loops are the same algorithm over the same columns, so they are
embedded once, parametrized by the kind prefix; the per-row field
extraction, which does differ between the two loops, is separate below. -/

/-- The in-memory working state of one upsert phase: the entity table, the
preloaded providerUniqueId map, the relation table, and the autoincrement
counter. -/
structure PhaseState where
  entities : List Entity
  idMap : List (String × Nat)
  rels : List Rel
  nextId : Nat
deriving DecidableEq, Repr

/-- The bulk preload of lines 105-106 / 166-167: all rows with a non-null
provider_unique_id, turned into a JS Map (later rows win). -/
def preloadIdMap (es : List Entity) : List (String × Nat) :=
  es.filterMap (fun e => e.provider_unique_id.map (fun u => (u, e.id)))

/-- The values bound per feed row before the update/insert branch. -/
structure UpsertInput where
  nativeId : String
  name : Option String
  year : Option Int
  description : Option String
  logo : Option String
  categoryName : String
  extra : Option String
deriving DecidableEq, Repr

/-- The UPDATE statement of lines 109/129 (and 170/190): refresh the five
mutable columns, leaving id and provider_unique_id untouched. -/
def applyInput (inp : UpsertInput) (e : Entity) : Entity :=
  { e with
    name := inp.name
    year := inp.year
    description := inp.description
    logo := inp.logo
    category_name := some inp.categoryName }

def updateEntities (es : List Entity) (i : Nat) (inp : UpsertInput) :
    List Entity :=
  es.map (fun e => if e.id = i then applyInput inp e else e)

/-- The INSERT statement of lines 108/133 (and 169/194): a fresh row whose
generated id is the autoincrement counter. -/
def newEntity (u : String) (i : Nat) (inp : UpsertInput) : Entity :=
  { id := i
    name := inp.name
    year := inp.year
    description := inp.description
    logo := inp.logo
    category_name := some inp.categoryName
    provider_unique_id := some u }

/-- Modelled from the spec: the relation tables are created outside src/ and
written with INSERT OR REPLACE; per the spec a relation binds one provider
native entry to an entity, so the conflict key is (provider_id, native_id)
and a replace drops the previous row under that key. -/
def upsertRel (rels : List Rel) (r : Rel) : List Rel :=
  rels.filter
    (fun x => !(x.provider_id == r.provider_id && x.native_id == r.native_id))
    ++ [r]

/-- One iteration of the upsert loop: a row without a usable native id was
already filtered out (none); otherwise resolve the provider-unique id through
the in-memory map, update in place or insert and register the fresh id, then
unconditionally write the relation row stamped with the scan-start
watermark. -/
def upsertStep (kind : String) (providerId scanStart : Nat)
    (st : PhaseState) (oi : Option UpsertInput) : PhaseState :=
  match oi with
  | none => st
  | some inp =>
    let u := puid kind providerId inp.nativeId
    match jsGet st.idMap u with
    | some eid =>
      { st with
        entities := updateEntities st.entities eid inp
        rels := upsertRel st.rels
          ⟨providerId, eid, inp.nativeId, inp.extra, scanStart⟩ }
    | none =>
      let eid := st.nextId
      { entities := st.entities ++ [newEntity u eid inp]
        idMap := jsSet st.idMap u eid
        rels := upsertRel st.rels
          ⟨providerId, eid, inp.nativeId, inp.extra, scanStart⟩
        nextId := eid + 1 }

/-! ## Feed rows and per-row field extraction -/

/-- A movie feed row as destructured on line 113, plus the releaseDate field
read on line 118; absent or falsy JS values are none. -/
structure MovieRow where
  name : Option String
  plot : Option String
  stream_icon : Option String
  stream_id : Option String
  container_extension : Option String
  category_id : Option String
  releaseDate : Option String
deriving DecidableEq, Repr

/-- A series feed row as destructured on line 174 plus releaseDate. -/
structure SeriesRow where
  name : Option String
  plot : Option String
  cover : Option String
  series_id : Option String
  category_id : Option String
  releaseDate : Option String
deriving DecidableEq, Repr

/-- Lines 113-123: skip a row with falsy stream_id, else bind the fields of
the movie upsert, with container_extension defaulting to mp4. -/
def movieRowInput (cm : List (String × String)) (row : MovieRow) :
    Option UpsertInput :=
  if strTruthy row.stream_id then
    some
      { nativeId := row.stream_id.getD ""
        name := row.name
        year := deriveYear row.releaseDate row.name
        description := row.plot
        logo := row.stream_icon
        categoryName := catLookup cm row.category_id "VOD"
        extra := some (if strTruthy row.container_extension then
          row.container_extension.getD "" else "mp4") }
  else none

/-- Lines 174-184: skip a row with falsy series_id, else bind the fields of
the series upsert; the series relation row has no extra column. -/
def seriesRowInput (cm : List (String × String)) (row : SeriesRow) :
    Option UpsertInput :=
  if strTruthy row.series_id then
    some
      { nativeId := row.series_id.getD ""
        name := row.name
        year := deriveYear row.releaseDate row.name
        description := row.plot
        logo := row.cover
        categoryName := catLookup cm row.category_id "Series"
        extra := none }
  else none

/-! ## Transactional row loops

A phase body runs inside BEGIN TRANSACTION .. COMMIT.  A failing statement
rejects, control reaches the catch block, and ROLLBACK discards every write
made since BEGIN, so a failed body leaves the store exactly as it was.  The
body is a fold over the rows in which an oracle says which row (if any) has a
failing write. -/

def runRows {σ α : Type} (step : σ → α → σ) (fail : Nat → Bool) :
    List α → Nat → σ → Option σ
  | [], _, s => some s
  | a :: as, i, s =>
    if fail i then none else runRows step fail as (i + 1) (step s a)

/-- The oracle of a run in which every write succeeds. -/
def noFail : Nat → Bool := fun _ => false

/-! ## The four phases of refreshVodContent -/

/-- The movies phase body (lines 103-147): preload the id map, fold the
upsert over the feed rows, and on commit write back the movies table, the
movie relations and the autoincrement counter. -/
def moviesApply (cm : List (String × String)) (p t : Nat)
    (fail : Nat → Bool) (rows : List MovieRow) (s : Store) : Option Store :=
  (runRows (upsertStep "movie" p t) fail (rows.map (movieRowInput cm)) 0
      ⟨s.movies, preloadIdMap s.movies, s.movieRels, s.nextMovieId⟩).map
    (fun ps =>
      { s with
        movies := ps.entities
        movieRels := ps.rels
        nextMovieId := ps.nextId })

/-- The series phase body (lines 164-208). -/
def seriesApply (cm : List (String × String)) (p t : Nat)
    (fail : Nat → Bool) (rows : List SeriesRow) (s : Store) : Option Store :=
  (runRows (upsertStep "series" p t) fail (rows.map (seriesRowInput cm)) 0
      ⟨s.series, preloadIdMap s.series, s.seriesRels, s.nextSeriesId⟩).map
    (fun ps =>
      { s with
        series := ps.entities
        seriesRels := ps.rels
        nextSeriesId := ps.nextId })

/-- Modelled from the spec: vod_categories is created outside src/; INSERT OR
IGNORE persists a category name only if the id is not already stored. -/
def insCatIfAbsent (cats : List (String × String)) (id name : String) :
    List (String × String) :=
  if cats.any (fun q => q.1 == id) then cats else cats ++ [(id, name)]

/-- One iteration of the category loop (lines 73-83) over the pair of the
stored vod_categories table and the in-memory categoryMap: rows with a falsy
id or name are skipped entirely. -/
def catStep (acc : List (String × String) × List (String × String))
    (c : Category) : List (String × String) × List (String × String) :=
  if c.category_id ≠ "" ∧ c.category_name ≠ "" then
    (insCatIfAbsent acc.1 c.category_id c.category_name,
     jsSet acc.2 c.category_id c.category_name)
  else acc

/-- The categories phase (lines 51-92): fetch both taxonomies, merge them
Series-last, and run the insert loop in a transaction.  none means the whole
run aborts: a fetch failure or a failed write (after rollback).  On success
it returns the store (only vod_categories changed) and the in-memory merged
map. -/
def categoriesSection (vodCats seriesCats : Except Unit (Option (List Category)))
    (fail : Nat → Bool) (s : Store) :
    Option (Store × List (String × String)) :=
  match vodCats, seriesCats with
  | .ok ov, .ok os =>
    let combined := (allCategoriesOf (ov.getD []) (os.getD [])).map Prod.snd
    (runRows catStep fail combined 0 (s.vodCategories, [])).map
      (fun r => ({ s with vodCategories := r.1 }, r.2))
  | _, _ => none

/-! ## Cleanup (lines 216-243) -/

/-- Step 1 of cleanup: for the current provider, delete every relation whose
last_seen predates the scan-start watermark (lines 223-230). -/
def reapRels (p t : Nat) (rels : List Rel) : List Rel :=
  rels.filter (fun r => !(r.provider_id == p && decide (r.last_seen < t)))

/-- Step 2 of cleanup: keep only entities whose id still appears in the
corresponding relation table (lines 233-235). -/
def keepReferenced (rels : List Rel) (es : List Entity) : List Entity :=
  es.filter (fun e => rels.any (fun r => r.entity_id == e.id))

def keepReferencedIds (rels : List Rel) (ids : List Nat) : List Nat :=
  ids.filter (fun i => rels.any (fun r => r.entity_id == i))

/-- The cleanup transaction body: reap stale relations of every kind for this
provider, then delete orphaned entities of every kind across all
providers. -/
def cleanupBody (p t : Nat) (s : Store) : Store :=
  let mr := reapRels p t s.movieRels
  let sr := reapRels p t s.seriesRels
  let er := reapRels p t s.episodeRels
  { s with
    movieRels := mr
    seriesRels := sr
    episodeRels := er
    movies := keepReferenced mr s.movies
    series := keepReferenced sr s.series
    episodes := keepReferencedIds er s.episodes }

/-! ## The orchestrator refreshVodContent -/

inductive Sev where
  | info
  | error
  | success
deriving DecidableEq, Repr

inductive Ph where
  | categories
  | movies
  | series
  | cleanup
  | done
deriving DecidableEq, Repr

/-- A status-sink event, reduced to the phase it talks about and its
severity; the claims only ever inspect these two aspects of a message. -/
abbrev Status := Ph × Sev

/-- The four fetches of one run.  error is a throwing ProviderClient call;
ok none is a null or non-array body, which the code treats as an empty,
skippable result. -/
structure Feeds where
  vodCats : Except Unit (Option (List Category))
  seriesCats : Except Unit (Option (List Category))
  movies : Except Unit (Option (List MovieRow))
  series : Except Unit (Option (List SeriesRow))

/-- Write-failure oracles, one per transactional phase. -/
structure Faults where
  categoriesFail : Nat → Bool
  moviesFail : Nat → Bool
  seriesFail : Nat → Bool
  cleanupFail : Bool

def noFaults : Faults :=
  { categoriesFail := noFail
    moviesFail := noFail
    seriesFail := noFail
    cleanupFail := false }

/-- The movies section (lines 94-153): a fetch failure or a failed write
rolls back to the store at section entry, reports an error and falls
through; otherwise the committed body result stands. -/
def moviesSection (feed : Except Unit (Option (List MovieRow)))
    (fail : Nat → Bool) (cm : List (String × String)) (p t : Nat)
    (s : Store) : Store × List Status :=
  match feed with
  | .error _ => (s, [(.movies, .info), (.movies, .error)])
  | .ok none => (s, [(.movies, .info)])
  | .ok (some rows) =>
    match moviesApply cm p t fail rows s with
    | some s2 => (s2, [(.movies, .info), (.movies, .info)])
    | none => (s, [(.movies, .info), (.movies, .error)])

/-- The series section (lines 155-214), same failure isolation. -/
def seriesSection (feed : Except Unit (Option (List SeriesRow)))
    (fail : Nat → Bool) (cm : List (String × String)) (p t : Nat)
    (s : Store) : Store × List Status :=
  match feed with
  | .error _ => (s, [(.series, .info), (.series, .error)])
  | .ok none => (s, [(.series, .info)])
  | .ok (some rows) =>
    match seriesApply cm p t fail rows s with
    | some s2 => (s2, [(.series, .info), (.series, .info)])
    | none => (s, [(.series, .info), (.series, .error)])

/-- The cleanup section (lines 216-243): on failure roll back cleanup only.
Its body issues fixed statements, so its failure oracle is one Bool. -/
def cleanupSection (fail : Bool) (p t : Nat) (s : Store) :
    Store × List Status :=
  if fail then (s, [(.cleanup, .info), (.cleanup, .error)])
  else (cleanupBody p t s, [(.cleanup, .info)])

/-- refreshVodContent after credential parsing and schema migration: run
Categories, Movies, Series, Cleanup strictly in order with one scan-start
watermark t.  A categories failure rolls back, reports and aborts the run;
a later failure rolls back its own phase only and execution proceeds. -/
def refreshVod (feeds : Feeds) (fl : Faults) (p t : Nat) (s0 : Store) :
    Store × List Status :=
  match categoriesSection feeds.vodCats feeds.seriesCats fl.categoriesFail s0 with
  | none => (s0, [(.categories, .info), (.categories, .error)])
  | some (s1, cm) =>
    let m := moviesSection feeds.movies fl.moviesFail cm p t s1
    let sr := seriesSection feeds.series fl.seriesFail cm p t m.1
    let cl := cleanupSection fl.cleanupFail p t sr.1
    (cl.1,
      [(.categories, .info)] ++ m.2 ++ sr.2 ++ cl.2 ++ [(.done, .success)])

/-! ## The playlist parser of processM3uVod (lines 264-294) -/

/-- JS String.startsWith, expressed over the character list. -/
def jsStartsWith (s pre : String) : Bool :=
  List.isPrefixOf pre.data s.data

/-- JS String.trim: strip leading and trailing whitespace. -/
def jsTrim (s : String) : String :=
  String.mk
    (((s.data.dropWhile Char.isWhitespace).reverse.dropWhile
      Char.isWhitespace).reverse)

/-- JS String.split over a one-character separator. -/
def splitLines : List Char → List String
  | [] => [""]
  | c :: rest =>
    match splitLines rest with
    | [] => []
    | hd :: tl =>
      if c = '\n' then "" :: hd :: tl else String.mk (c :: hd.data) :: tl

/-- The character class of the attribute-name group in the regex of
line 271. -/
def attrNameChar (c : Char) : Bool :=
  c.isAlphanum || c == '_' || c == '-'

/-- Global scan of the key="value" attribute regex against one line: at each
position try a maximal attribute-name run, a literal equals sign and quote, a
maximal quote-free value and the closing quote; on success continue after the
closing quote, on a mismatch restart one character to the right.  The fuel is
the remaining length; every step consumes at least one character, so the fuel
never runs out. -/
def scanAttrsAux : Nat → List Char → List (String × String)
  | 0, _ => []
  | _ + 1, [] => []
  | fuel + 1, c :: rest =>
    if attrNameChar c then
      match (c :: rest).span attrNameChar with
      | (nm, rest2) =>
        match rest2 with
        | '=' :: '"' :: rest3 =>
          let hd := rest3.span (fun ch => ch ≠ '"')
          match hd.2 with
          | '"' :: rest5 =>
            (String.mk nm, String.mk hd.1) :: scanAttrsAux fuel rest5
          | _ => []
        | _ => scanAttrsAux fuel rest
    else scanAttrsAux fuel rest

def scanAttrs (l : List Char) : List (String × String) :=
  scanAttrsAux l.length l

/-- The first-comma capture of the name regex on line 280: the text after
the first comma to the end of the line, if any comma exists. -/
def afterFirstComma : List Char → Option (List Char)
  | [] => none
  | ',' :: rest => some rest
  | _ :: rest => afterFirstComma rest

/-- A pending metadata entry: the extracted attribute pairs and the display
name (lines 275-281). -/
structure ExtInf where
  attributes : List (String × String)
  name : String
deriving DecidableEq, Repr

def mkExtInf (line : String) : ExtInf :=
  { attributes := scanAttrs line.data
    name :=
      match afterFirstComma line.data with
      | some cs => jsTrim (String.mk cs)
      | none => "Untitled" }

/-- JS String.includes, i.e. contiguous substring containment. -/
def subIncl (sub l : List Char) : Bool :=
  l.tails.any (fun t => List.isPrefixOf sub t)

/-- The line loop of lines 273-294.  A metadata line replaces the pending
entry; a URL line while an entry is pending classifies it as movie or series
(URL path segment or tvg-type attribute) and emits it, then resets the
pending entry; every other line leaves the state untouched. -/
def m3uScan : List String → Option ExtInf → List (ExtInf × String) →
    List (ExtInf × String) → List (ExtInf × String) × List (ExtInf × String)
  | [], _, ms, ss => (ms, ss)
  | line :: rest, cur, ms, ss =>
    if jsStartsWith line "#EXTINF:" then
      m3uScan rest (some (mkExtInf line)) ms ss
    else
      match cur with
      | some e =>
        if jsStartsWith (jsTrim line) "http" then
          let url := jsTrim line
          let isMov := subIncl "/movie/".data url.data ||
            jsGet e.attributes "tvg-type" == some "movie"
          let isSer := subIncl "/series/".data url.data ||
            jsGet e.attributes "tvg-type" == some "series"
          if isMov then m3uScan rest none (ms ++ [(e, url)]) ss
          else if isSer then m3uScan rest none ms (ss ++ [(e, url)])
          else m3uScan rest none ms ss
        else m3uScan rest (some e) ms ss
      | none => m3uScan rest none ms ss

/-- Line 265 and the loop: split the raw text on newlines and scan. -/
def m3uParse (content : String) :
    List (ExtInf × String) × List (ExtInf × String) :=
  m3uScan (splitLines content.data) none [] []

/-! ## The M3U database writes (lines 299-372) -/

/-- Line 311: the text after the last slash of the URL, cut before its first
dot. -/
def m3uStreamId (url : String) : String :=
  String.mk
    (((url.data.reverse.takeWhile (fun c => c ≠ '/')).reverse).takeWhile
      (fun c => c ≠ '.'))

/-- Line 330: the text after the last dot of the URL (the whole URL when it
has no dot, exactly as split-pop behaves), defaulting to mp4 when falsy. -/
def m3uExtension (url : String) : String :=
  let lastPart := (url.data.reverse.takeWhile (fun c => c ≠ '.')).reverse
  if lastPart.isEmpty then "mp4" else String.mk lastPart

/-- Line 347: collapse each whitespace run of the name to one underscore,
then lower-case. -/
def collapseWsAux : Bool → List Char → List Char
  | _, [] => []
  | prevWs, c :: rest =>
    if c.isWhitespace then
      if prevWs then collapseWsAux true rest
      else '_' :: collapseWsAux true rest
    else c :: collapseWsAux false rest

def m3uSeriesSlug (name : String) : String :=
  String.mk ((collapseWsAux false name.data).map Char.toLower)

/-- Attribute access with the or-null fallback of line 315. -/
def attrOrNone (e : ExtInf) (k : String) : Option String :=
  match jsGet e.attributes k with
  | some v => if v = "" then none else some v
  | none => none

/-- Attribute access with a default label, line 316 / 352. -/
def attrOrDflt (e : ExtInf) (k dflt : String) : String :=
  match jsGet e.attributes k with
  | some v => if v = "" then dflt else v
  | none => dflt

/-- One iteration of the M3U movie loop (lines 309-332): INSERT OR IGNORE
semantics with a preloaded map means an already-known provider-unique id
writes only the relation row; there is no field update for an existing
entity on this path. -/
def m3uMovieStep (p t : Nat) (st : PhaseState) (it : ExtInf × String) :
    PhaseState :=
  let sid := m3uStreamId it.2
  let u := puid "movie" p sid
  let rel : Rel := ⟨p, 0, sid, some (m3uExtension it.2), t⟩
  match jsGet st.idMap u with
  | some mid => { st with rels := upsertRel st.rels { rel with entity_id := mid } }
  | none =>
    let mid := st.nextId
    { entities := st.entities ++
        [{ id := mid
           name := some it.1.name
           year := (extractYear4 it.1.name.data).map Int.ofNat
           description := none
           logo := attrOrNone it.1 "tvg-logo"
           category_name := some (attrOrDflt it.1 "group-title" "VOD")
           provider_unique_id := some u }]
      idMap := jsSet st.idMap u mid
      rels := upsertRel st.rels { rel with entity_id := mid }
      nextId := mid + 1 }

/-- One iteration of the M3U series loop (lines 344-367): the native id is a
slug of the display name; again no field update for an existing entity. -/
def m3uSeriesStep (p t : Nat) (st : PhaseState) (it : ExtInf × String) :
    PhaseState :=
  let esid := m3uSeriesSlug it.1.name
  let u := puid "series" p esid
  let rel : Rel := ⟨p, 0, esid, none, t⟩
  match jsGet st.idMap u with
  | some sid => { st with rels := upsertRel st.rels { rel with entity_id := sid } }
  | none =>
    let sid := st.nextId
    { entities := st.entities ++
        [{ id := sid
           name := some it.1.name
           year := (extractYear4 it.1.name.data).map Int.ofNat
           description := none
           logo := attrOrNone it.1 "tvg-logo"
           category_name := some (attrOrDflt it.1 "group-title" "Series")
           provider_unique_id := some u }]
      idMap := jsSet st.idMap u sid
      rels := upsertRel st.rels { rel with entity_id := sid }
      nextId := sid + 1 }

/-- The single transaction of lines 300-372: both loops run inside one
BEGIN .. COMMIT; a failing write anywhere yields none and the catch block
rolls the whole ingestion back. -/
def m3uBody (p t : Nat) (fail : Nat → Bool)
    (ms ss : List (ExtInf × String)) (s : Store) : Option Store :=
  match runRows (m3uMovieStep p t) fail ms 0
      ⟨s.movies, preloadIdMap s.movies, s.movieRels, s.nextMovieId⟩ with
  | none => none
  | some mps =>
    let s1 := { s with
      movies := mps.entities
      movieRels := mps.rels
      nextMovieId := mps.nextId }
    match runRows (m3uSeriesStep p t) fail ss ms.length
        ⟨s1.series, preloadIdMap s1.series, s1.seriesRels, s1.nextSeriesId⟩ with
    | none => none
    | some sps =>
      some { s1 with
        series := sps.entities
        seriesRels := sps.rels
        nextSeriesId := sps.nextId }

/-- processM3uVod: parse, then run the one transaction; on failure the store
at entry is restored and an error is reported, on success the combined
result is committed. -/
def processM3u (p t : Nat) (fail : Nat → Bool) (content : String)
    (s : Store) : Store × List Status :=
  let parsed := m3uParse content
  match m3uBody p t fail parsed.1 parsed.2 s with
  | some s2 => (s2, [(.movies, .info), (.done, .success)])
  | none => (s, [(.movies, .info), (.movies, .error)])

/-! ## Specification-side definitions used only to state theorems -/

/-- The last category entry of a feed carrying a given id (feeds are merged
in order, so this is the entry whose name the merge is expected to keep). -/
def lastCat : List Category → String → Option Category
  | [], _ => none
  | c :: l, k =>
    match lastCat l k with
    | some d => some d
    | none => if c.category_id = k then some c else none

/-- Well-formedness of an entity table with its autoincrement counter: ids
are below the counter, ids identify rows, and a provider-unique id is
carried by at most one row. -/
def WFE (es : List Entity) (next : Nat) : Prop :=
  (∀ e ∈ es, e.id < next) ∧
  (∀ a ∈ es, ∀ b ∈ es, a.id = b.id → a = b) ∧
  (∀ a ∈ es, ∀ b ∈ es, ∀ u, a.provider_unique_id = some u →
    b.provider_unique_id = some u → a = b)

/-- The in-memory id map agrees with the entity table: it resolves a
provider-unique id to exactly the ids of rows carrying it. -/
def mapSync (m : List (String × Nat)) (es : List Entity) : Prop :=
  ∀ u i, jsGet m u = some i ↔
    ∃ e ∈ es, e.id = i ∧ e.provider_unique_id = some u

/-- The invariant of a running upsert phase. -/
def Inv (st : PhaseState) : Prop :=
  WFE st.entities st.nextId ∧ mapSync st.idMap st.entities

/-- The last input of the list whose provider-unique id is u, i.e. the
occurrence whose field values the upsert loop leaves in place. -/
def lastTouch (kind : String) (p : Nat) (inputs : List (Option UpsertInput))
    (u : String) : Option UpsertInput :=
  inputs.foldl
    (fun acc oi =>
      match oi with
      | some inp => if puid kind p inp.nativeId = u then some inp else acc
      | none => acc)
    none

/-- The last input of the list that a fixed id map resolves to entity id i. -/
def lastInputFor (kind : String) (p : Nat) (m : List (String × Nat))
    (inputs : List (Option UpsertInput)) (i : Nat) : Option UpsertInput :=
  inputs.foldl
    (fun acc oi =>
      match oi with
      | some inp =>
        if jsGet m (puid kind p inp.nativeId) = some i then some inp else acc
      | none => acc)
    none

/-- Replay of an input list as updates only, resolving through a fixed map:
what a second run over an unchanged feed executes. -/
def replayU (kind : String) (p : Nat) (m : List (String × Nat))
    (inputs : List (Option UpsertInput)) (es : List Entity) : List Entity :=
  inputs.foldl
    (fun acc oi =>
      match oi with
      | none => acc
      | some inp =>
        match jsGet m (puid kind p inp.nativeId) with
        | some i => updateEntities acc i inp
        | none => acc)
    es

/-- The whole upsert loop of one phase as a fold of its step. -/
def runUpsert (kind : String) (p t : Nat)
    (inputs : List (Option UpsertInput)) (st : PhaseState) : PhaseState :=
  inputs.foldl (upsertStep kind p t) st

/-- The movie upsert inputs of one run: a null feed contributes nothing. -/
def movieInputsOf (cm : List (String × String)) :
    Option (List MovieRow) → List (Option UpsertInput)
  | none => []
  | some rows => rows.map (movieRowInput cm)

def seriesInputsOf (cm : List (String × String)) :
    Option (List SeriesRow) → List (Option UpsertInput)
  | none => []
  | some rows => rows.map (seriesRowInput cm)

/-- The in-memory merged category map of a fault-free categories phase; it
does not depend on the stored vod_categories table. -/
def cmPure (vc sc : Option (List Category)) : List (String × String) :=
  (((allCategoriesOf (vc.getD []) (sc.getD [])).map Prod.snd).foldl catStep
    ([], [])).2

/-- The store effect of a committed categories phase. -/
def catStore (vc sc : Option (List Category)) (s : Store) : Store :=
  { s with
    vodCategories :=
      (((allCategoriesOf (vc.getD []) (sc.getD [])).map Prod.snd).foldl
        catStep (s.vodCategories, [])).1 }

/-- The store effect of a committed movies phase. -/
def moviesStore (cm : List (String × String)) (p t : Nat)
    (mv : Option (List MovieRow)) (s : Store) : Store :=
  let X := runUpsert "movie" p t (movieInputsOf cm mv)
    ⟨s.movies, preloadIdMap s.movies, s.movieRels, s.nextMovieId⟩
  { s with
    movies := X.entities
    movieRels := X.rels
    nextMovieId := X.nextId }

/-- The store effect of a committed series phase. -/
def seriesStore (cm : List (String × String)) (p t : Nat)
    (sr : Option (List SeriesRow)) (s : Store) : Store :=
  let Y := runUpsert "series" p t (seriesInputsOf cm sr)
    ⟨s.series, preloadIdMap s.series, s.seriesRels, s.nextSeriesId⟩
  { s with
    series := Y.entities
    seriesRels := Y.rels
    nextSeriesId := Y.nextId }

/-- The store effect of one whole fault-free run. -/
def refreshStore (vc sc : Option (List Category))
    (mv : Option (List MovieRow)) (sr : Option (List SeriesRow))
    (p t : Nat) (s : Store) : Store :=
  cleanupBody p t
    (seriesStore (cmPure vc sc) p t sr
      (moviesStore (cmPure vc sc) p t mv (catStore vc sc s)))

/-! ## Lemmas: jsGet -/

lemma jsGet_nil {β : Type} (k : String) : jsGet ([] : List (String × β)) k = none := rfl

lemma jsGet_cons {β : Type} (q : String × β) (m : List (String × β)) (k : String) :
    jsGet (q :: m) k =
      match jsGet m k with
      | some v => some v
      | none => if q.1 = k then some q.2 else none := rfl

lemma jsGet_append_single {β : Type} (m : List (String × β)) (u : String)
    (v : β) (k : String) :
    jsGet (m ++ [(u, v)]) k = if u = k then some v else jsGet m k := by
  induction m with
  | nil =>
    by_cases h : u = k <;> simp [jsGet, h]
  | cons q m ih =>
    rw [List.cons_append, jsGet_cons, ih, jsGet_cons]
    by_cases h : u = k <;> simp [h]

/-! ## Lemmas: year extraction -/

lemma extractYear4_cons_ne (x : Char) (rest : List Char) (hx : x ≠ '(') :
    extractYear4 (x :: rest) = extractYear4 rest := by
  simp [extractYear4, hx]

lemma extractYear4_head_match (a b x y : Char) (post : List Char)
    (ha : a.isDigit) (hb : b.isDigit) (hx : x.isDigit) (hy : y.isDigit) :
    extractYear4 ('(' :: a :: b :: x :: y :: ')' :: post) =
      some (1000 * digitVal a + 100 * digitVal b + 10 * digitVal x +
        digitVal y) := by
  simp [extractYear4, ha, hb, hx, hy]

lemma extractYear4_clean_pre (pre : List Char) (h : '(' ∉ pre)
    (a b x y : Char) (ha : a.isDigit) (hb : b.isDigit) (hx : x.isDigit)
    (hy : y.isDigit) (post : List Char) :
    extractYear4 (pre ++ '(' :: a :: b :: x :: y :: ')' :: post) =
      some (1000 * digitVal a + 100 * digitVal b + 10 * digitVal x +
        digitVal y) := by
  induction pre with
  | nil => simpa using extractYear4_head_match a b x y post ha hb hx hy
  | cons z zs ih =>
    have hz : z ≠ '(' := fun hzz => h (by simp [hzz])
    rw [List.cons_append, extractYear4_cons_ne z _ hz]
    exact ih (fun hm => h (List.mem_cons_of_mem z hm))

/-- C9: for every feed row, the derived year is the calendar year of a
truthy release-date field; with no (or an empty) release date it is the
first parenthesised four-digit token of the name, in particular some value
whenever such a token follows a parenthesis-free prefix, and no value when
the name carries no such token; the three concrete examples of the spec
evaluate accordingly. -/
theorem yearDerivation :
    (∀ rd nm, rd ≠ "" → deriveYear (some rd) nm = some (dateFullYear rd)) ∧
    (∀ pre post a b x y, '(' ∉ pre → a.isDigit → b.isDigit → x.isDigit →
      y.isDigit →
      deriveYear none (some (String.mk (pre ++ '(' :: a :: b :: x :: y ::
        ')' :: post))) =
        some (Int.ofNat (1000 * digitVal a + 100 * digitVal b +
          10 * digitVal x + digitVal y))) ∧
    (∀ nm, extractYear4 nm.data = none → deriveYear none (some nm) = none) ∧
    deriveYear none (some "Heat (1995)") = some 1995 ∧
    deriveYear (some "1996-01-01") (some "Heat") = some 1996 ∧
    deriveYear none (some "Heat") = none := by
  refine ⟨?_, ?_, ?_, by decide, by decide, by decide⟩
  · intro rd nm h
    simp [deriveYear, h]
  · intro pre post a b x y hpre ha hb hx hy
    have hne : String.mk (pre ++ '(' :: a :: b :: x :: y :: ')' :: post) ≠ "" := by
      intro hc
      simp [String.ext_iff] at hc
    simp only [deriveYear, nameYearTok, hne, if_neg, if_false]
    rw [extractYear4_clean_pre pre hpre a b x y ha hb hx hy post]
    rfl
  · intro nm h
    by_cases hnm : nm = "" <;> simp [deriveYear, nameYearTok, hnm, h]

/-- Witness for C9 at the release-date example of the spec. -/
theorem yearDerivation_w :
    deriveYear (some "1996-01-01") (some "Heat") =
      some (dateFullYear "1996-01-01") :=
  yearDerivation.1 "1996-01-01" (some "Heat") (by decide)

/-! ## Lemmas: category merging -/

lemma jsGet_map_overwrite (c : Category) (k : String)
    (m : List (String × Category)) :
    jsGet (m.map (fun p => if p.1 == c.category_id then (p.1, c) else p)) k =
      if c.category_id = k then (jsGet m k).map (fun _ => c)
      else jsGet m k := by
  induction m with
  | nil => by_cases h : c.category_id = k <;> simp [jsGet, h]
  | cons q m ih =>
    rw [List.map_cons, jsGet_cons, ih, jsGet_cons]
    by_cases h : c.category_id = k
    · subst h
      by_cases hq : q.1 = c.category_id <;>
        cases hm : jsGet m c.category_id <;>
          simp [hq, hm]
    · by_cases hq : q.1 = c.category_id
      · have hqk : ¬(q.1 = k) := by rw [hq]; exact h
        simp [hq, hqk, h]
      · simp [hq, h]

lemma jsGet_isSome_of_any (m : List (String × Category)) (k : String)
    (h : m.any (fun p => p.1 == k) = true) : (jsGet m k).isSome := by
  induction m with
  | nil => simp at h
  | cons q m ih =>
    rw [jsGet_cons]
    rcases List.any_eq_true.mp h with ⟨p, hp, hpk⟩
    rcases List.mem_cons.mp hp with hphd | hptl
    · cases hm : jsGet m k
      · subst hphd
        simp only [beq_iff_eq] at hpk
        simp [hpk]
      · simp
    · have : (jsGet m k).isSome := ih (List.any_eq_true.mpr ⟨p, hptl, hpk⟩)
      cases hm : jsGet m k
      · rw [hm] at this; simp at this
      · simp

lemma jsGet_objInsert (m : List (String × Category)) (c : Category)
    (k : String) :
    jsGet (objInsert m c) k =
      if c.category_id = k then some c else jsGet m k := by
  unfold objInsert
  by_cases hany : m.any (fun p => p.1 == c.category_id) = true
  · rw [if_pos hany, jsGet_map_overwrite]
    by_cases h : c.category_id = k
    · subst h
      have hs := jsGet_isSome_of_any m c.category_id hany
      cases hm : jsGet m c.category_id
      · rw [hm] at hs; simp at hs
      · simp [hm]
    · simp [h]
  · rw [if_neg hany, jsGet_append_single]

lemma jsGet_foldl_objInsert (l : List Category)
    (m : List (String × Category)) (k : String) :
    jsGet (l.foldl objInsert m) k =
      match lastCat l k with
      | some c => some c
      | none => jsGet m k := by
  induction l generalizing m with
  | nil => simp [lastCat]
  | cons c l ih =>
    rw [List.foldl_cons, ih, jsGet_objInsert]
    show _ = (match (match lastCat l k with
      | some d => some d
      | none => if c.category_id = k then some c else none) with
      | some d => some d
      | none => jsGet m k)
    cases hl : lastCat l k
    · by_cases h : c.category_id = k <;> simp [h]
    · simp

/-- C8: the merged category object takes all VOD entries first and then all
Series entries, so an id occurring in the Series feed resolves to the last
Series entry carrying it (in particular the Series name wins over a VOD name
for the same id), an id absent from the Series feed keeps its VOD
resolution, and the Action/Drama example of the spec merges to Drama. -/
theorem categoryMergeSeriesWins :
    (∀ vodCats seriesCats id c, lastCat seriesCats id = some c →
      jsGet (allCategoriesOf vodCats seriesCats) id = some c) ∧
    (∀ vodCats seriesCats id, lastCat seriesCats id = none →
      jsGet (allCategoriesOf vodCats seriesCats) id =
        jsGet (vodCats.foldl objInsert []) id) ∧
    (jsGet (allCategoriesOf [⟨"5", "Action"⟩] [⟨"5", "Drama"⟩]) "5").map
        Category.category_name = some "Drama" := by
  refine ⟨?_, ?_, by decide⟩
  · intro vodCats seriesCats id c h
    rw [allCategoriesOf, jsGet_foldl_objInsert, h]
  · intro vodCats seriesCats id h
    rw [allCategoriesOf, jsGet_foldl_objInsert, h]

/-- Witness for C8: the colliding id 5 resolves to the Series entry. -/
theorem categoryMergeSeriesWins_w :
    jsGet (allCategoriesOf [⟨"5", "Action"⟩] [⟨"5", "Drama"⟩]) "5" =
      some ⟨"5", "Drama"⟩ :=
  categoryMergeSeriesWins.1 [⟨"5", "Action"⟩] [⟨"5", "Drama"⟩] "5"
    ⟨"5", "Drama"⟩ (by decide)

/-! ## Lemmas: cleanup -/

lemma mem_keepReferenced (rels : List Rel) (es : List Entity) (e : Entity) :
    e ∈ keepReferenced rels es ↔
      e ∈ es ∧ ∃ r ∈ rels, r.entity_id = e.id := by
  simp [keepReferenced, List.mem_filter, List.any_eq_true]

lemma mem_keepReferencedIds (rels : List Rel) (ids : List Nat) (i : Nat) :
    i ∈ keepReferencedIds rels ids ↔
      i ∈ ids ∧ ∃ r ∈ rels, r.entity_id = i := by
  simp [keepReferencedIds, List.mem_filter, List.any_eq_true]

lemma mem_reapRels (p t : Nat) (rels : List Rel) (r : Rel) :
    r ∈ reapRels p t rels ↔
      r ∈ rels ∧ ¬(r.provider_id = p ∧ r.last_seen < t) := by
  simp [reapRels, List.mem_filter]
  tauto

lemma mem_reapRels_of_other_provider (p t : Nat) (rels : List Rel) (r : Rel)
    (hr : r ∈ rels) (hp : r.provider_id ≠ p) : r ∈ reapRels p t rels :=
  (mem_reapRels p t rels r).mpr ⟨hr, fun hc => hp hc.1⟩

/-- C1: after the stale-relation reaping of one provider p, an entity of any
kind survives the cleanup transaction exactly when some remaining relation of
any provider still references it; consequently an entity referenced by any
relation of a provider other than p is never deleted by the cleanup run for
p, whatever the last-seen stamp of that relation. -/
theorem cleanupOrphanRule :
    (∀ p t s e, e ∈ (cleanupBody p t s).movies ↔
      e ∈ s.movies ∧ ∃ r ∈ reapRels p t s.movieRels, r.entity_id = e.id) ∧
    (∀ p t s e, e ∈ (cleanupBody p t s).series ↔
      e ∈ s.series ∧ ∃ r ∈ reapRels p t s.seriesRels, r.entity_id = e.id) ∧
    (∀ p t s i, i ∈ (cleanupBody p t s).episodes ↔
      i ∈ s.episodes ∧ ∃ r ∈ reapRels p t s.episodeRels, r.entity_id = i) ∧
    (∀ p t s e r, e ∈ s.movies → r ∈ s.movieRels → r.entity_id = e.id →
      r.provider_id ≠ p → e ∈ (cleanupBody p t s).movies) ∧
    (∀ p t s e r, e ∈ s.series → r ∈ s.seriesRels → r.entity_id = e.id →
      r.provider_id ≠ p → e ∈ (cleanupBody p t s).series) ∧
    (∀ p t s i r, i ∈ s.episodes → r ∈ s.episodeRels → r.entity_id = i →
      r.provider_id ≠ p → i ∈ (cleanupBody p t s).episodes) := by
  refine ⟨?_, ?_, ?_, ?_, ?_, ?_⟩
  · intro p t s e; exact mem_keepReferenced _ _ _
  · intro p t s e; exact mem_keepReferenced _ _ _
  · intro p t s i; exact mem_keepReferencedIds _ _ _
  · intro p t s e r he hr hid hp
    exact (mem_keepReferenced _ _ _).mpr
      ⟨he, r, mem_reapRels_of_other_provider p t _ r hr hp, hid⟩
  · intro p t s e r he hr hid hp
    exact (mem_keepReferenced _ _ _).mpr
      ⟨he, r, mem_reapRels_of_other_provider p t _ r hr hp, hid⟩
  · intro p t s i r hi hr hid hp
    exact (mem_keepReferencedIds _ _ _).mpr
      ⟨hi, r, mem_reapRels_of_other_provider p t _ r hr hp, hid⟩

/-- Witness for C1: provider 2 cleanup keeps a movie referenced only by a
stale-stamped relation of provider 1. -/
theorem cleanupOrphanRule_w :
    (⟨7, some "M", none, none, none, some "VOD", some "movie_1_9"⟩ : Entity) ∈
      (cleanupBody 2 5
        ⟨[⟨7, some "M", none, none, none, some "VOD", some "movie_1_9"⟩],
          [], [], [⟨1, 7, "9", some "mp4", 0⟩], [], [], [], 8, 0⟩).movies :=
  cleanupOrphanRule.2.2.2.1 2 5
    ⟨[⟨7, some "M", none, none, none, some "VOD", some "movie_1_9"⟩],
      [], [], [⟨1, 7, "9", some "mp4", 0⟩], [], [], [], 8, 0⟩
    ⟨7, some "M", none, none, none, some "VOD", some "movie_1_9"⟩
    ⟨1, 7, "9", some "mp4", 0⟩
    (by decide) (by decide) (by decide) (by decide)

/-! ## Lemmas: the playlist line loop -/

lemma m3uScan_cons_other (l : String) (lines : List String)
    (cur : Option ExtInf) (ms ss : List (ExtInf × String))
    (h1 : jsStartsWith l "#EXTINF:" = false)
    (h2 : jsStartsWith (jsTrim l) "http" = false) :
    m3uScan (l :: lines) cur ms ss = m3uScan lines cur ms ss := by
  cases cur <;> simp [m3uScan, h1, h2]

/-- C7 counterexample: a junk line standing between a metadata line and its
URL line does not discard the pending entry; the entry is still emitted as a
movie record, while the claim requires that nothing be produced from it. -/
theorem m3uPendingDiscard_cex :
    (m3uParse
        "#EXTINF:-1,Movie One\nsome junk line\nhttp://host/movie/42.mp4").1 =
      [(⟨[], "Movie One"⟩, "http://host/movie/42.mp4")] ∧
    (m3uParse
        "#EXTINF:-1,Movie One\nsome junk line\nhttp://host/movie/42.mp4").1 ≠
      [] := by
  constructor
  · decide
  · decide

/-- C7 amended: lines that are neither metadata nor URL lines are skipped
without touching the pending entry; the next URL line always closes the
pending entry, emitting it as a movie or a series record when it classifies
as one (URL path segment or tvg-type attribute) and silently dropping it
when it classifies as neither; apart from that, the pending entry is
discarded only by being replaced by a new metadata line or by the input
ending before any URL line. -/
theorem m3uPendingLifecycle :
    (∀ junk lines cur ms ss,
      (∀ l ∈ junk, jsStartsWith l "#EXTINF:" = false ∧
        jsStartsWith (jsTrim l) "http" = false) →
      m3uScan (junk ++ lines) cur ms ss = m3uScan lines cur ms ss) ∧
    (∀ l lines cur ms ss, jsStartsWith l "#EXTINF:" = true →
      m3uScan (l :: lines) cur ms ss =
        m3uScan lines (some (mkExtInf l)) ms ss) ∧
    (∀ cur ms ss, m3uScan [] cur ms ss = (ms, ss)) ∧
    (∀ l lines e ms ss, jsStartsWith l "#EXTINF:" = false →
      jsStartsWith (jsTrim l) "http" = true →
      m3uScan (l :: lines) (some e) ms ss =
        (if (subIncl "/movie/".data (jsTrim l).data ||
            jsGet e.attributes "tvg-type" == some "movie") = true then
          m3uScan lines none (ms ++ [(e, jsTrim l)]) ss
        else if (subIncl "/series/".data (jsTrim l).data ||
            jsGet e.attributes "tvg-type" == some "series") = true then
          m3uScan lines none ms (ss ++ [(e, jsTrim l)])
        else
          m3uScan lines none ms ss)) := by
  refine ⟨?_, ?_, ?_, ?_⟩
  · intro junk lines cur ms ss hj
    induction junk with
    | nil => simp
    | cons l junk ih =>
      have hl := hj l (List.mem_cons_self l junk)
      rw [List.cons_append, m3uScan_cons_other l _ cur ms ss hl.1 hl.2]
      exact ih (fun x hx => hj x (List.mem_cons_of_mem l hx))
  · intro l lines cur ms ss h
    simp [m3uScan, h]
  · intro cur ms ss
    rfl
  · intro l lines e ms ss h1 h2
    by_cases hmov : (subIncl "/movie/".data (jsTrim l).data ||
        jsGet e.attributes "tvg-type" == some "movie") = true
    · rw [if_pos hmov]
      simp [m3uScan, h1, h2, hmov]
    · rw [if_neg hmov]
      have hmovf : (subIncl "/movie/".data (jsTrim l).data ||
          jsGet e.attributes "tvg-type" == some "movie") = false :=
        Bool.eq_false_iff.mpr hmov
      by_cases hser : (subIncl "/series/".data (jsTrim l).data ||
          jsGet e.attributes "tvg-type" == some "series") = true
      · rw [if_pos hser]
        simp [m3uScan, h1, h2, hmovf, hser]
      · rw [if_neg hser]
        have hserf : (subIncl "/series/".data (jsTrim l).data ||
            jsGet e.attributes "tvg-type" == some "series") = false :=
          Bool.eq_false_iff.mpr hser
        simp [m3uScan, h1, h2, hmovf, hserf]

/-- Witness for C7 amended: the junk line of the counterexample input is
skipped and the pending entry survives to the URL line. -/
theorem m3uPendingLifecycle_w :
    m3uScan ["some junk line", "http://host/movie/42.mp4"]
        (some ⟨[], "Movie One"⟩) [] [] =
      m3uScan ["http://host/movie/42.mp4"] (some ⟨[], "Movie One"⟩) [] [] :=
  m3uPendingLifecycle.1 ["some junk line"] ["http://host/movie/42.mp4"]
    (some ⟨[], "Movie One"⟩) [] [] (by decide)

/-! ## Lemmas: single upsert steps -/

lemma map_id_updateEntities (es : List Entity) (i : Nat) (inp : UpsertInput) :
    (updateEntities es i inp).map Entity.id = es.map Entity.id := by
  unfold updateEntities
  rw [List.map_map]
  apply List.map_congr_left
  intro e _
  by_cases h : e.id = i <;> simp [h, applyInput]

lemma upsertStep_update (kind : String) (p t : Nat) (st : PhaseState)
    (inp : UpsertInput) (i : Nat)
    (h : jsGet st.idMap (puid kind p inp.nativeId) = some i) :
    upsertStep kind p t st (some inp) =
      { st with
        entities := updateEntities st.entities i inp
        rels := upsertRel st.rels ⟨p, i, inp.nativeId, inp.extra, t⟩ } := by
  simp [upsertStep, h]

lemma upsertStep_insert (kind : String) (p t : Nat) (st : PhaseState)
    (inp : UpsertInput)
    (h : jsGet st.idMap (puid kind p inp.nativeId) = none) :
    upsertStep kind p t st (some inp) =
      { entities := st.entities ++
          [newEntity (puid kind p inp.nativeId) st.nextId inp]
        idMap := jsSet st.idMap (puid kind p inp.nativeId) st.nextId
        rels := upsertRel st.rels ⟨p, st.nextId, inp.nativeId, inp.extra, t⟩
        nextId := st.nextId + 1 } := by
  simp [upsertStep, h]

lemma m3uMovieStep_seen (p t : Nat) (st : PhaseState) (it : ExtInf × String)
    (i : Nat)
    (h : jsGet st.idMap (puid "movie" p (m3uStreamId it.2)) = some i) :
    m3uMovieStep p t st it =
      { st with
        rels := upsertRel st.rels
          ⟨p, i, m3uStreamId it.2, some (m3uExtension it.2), t⟩ } := by
  simp [m3uMovieStep, h]

lemma m3uSeriesStep_seen (p t : Nat) (st : PhaseState) (it : ExtInf × String)
    (i : Nat)
    (h : jsGet st.idMap (puid "series" p (m3uSeriesSlug it.1.name)) = some i) :
    m3uSeriesStep p t st it =
      { st with
        rels := upsertRel st.rels
          ⟨p, i, m3uSeriesSlug it.1.name, none, t⟩ } := by
  simp [m3uSeriesStep, h]

lemma m3uMovieStep_unseen (p t : Nat) (st : PhaseState)
    (it : ExtInf × String)
    (h : jsGet st.idMap (puid "movie" p (m3uStreamId it.2)) = none) :
    m3uMovieStep p t st it =
      { entities := st.entities ++
          [⟨st.nextId, some it.1.name,
            (extractYear4 it.1.name.data).map Int.ofNat, none,
            attrOrNone it.1 "tvg-logo",
            some (attrOrDflt it.1 "group-title" "VOD"),
            some (puid "movie" p (m3uStreamId it.2))⟩]
        idMap := jsSet st.idMap (puid "movie" p (m3uStreamId it.2)) st.nextId
        rels := upsertRel st.rels
          ⟨p, st.nextId, m3uStreamId it.2, some (m3uExtension it.2), t⟩
        nextId := st.nextId + 1 } := by
  simp [m3uMovieStep, h]

lemma m3uSeriesStep_unseen (p t : Nat) (st : PhaseState)
    (it : ExtInf × String)
    (h : jsGet st.idMap (puid "series" p (m3uSeriesSlug it.1.name)) = none) :
    m3uSeriesStep p t st it =
      { entities := st.entities ++
          [⟨st.nextId, some it.1.name,
            (extractYear4 it.1.name.data).map Int.ofNat, none,
            attrOrNone it.1 "tvg-logo",
            some (attrOrDflt it.1 "group-title" "Series"),
            some (puid "series" p (m3uSeriesSlug it.1.name))⟩]
        idMap := jsSet st.idMap (puid "series" p (m3uSeriesSlug it.1.name))
          st.nextId
        rels := upsertRel st.rels
          ⟨p, st.nextId, m3uSeriesSlug it.1.name, none, t⟩
        nextId := st.nextId + 1 } := by
  simp [m3uSeriesStep, h]

/-- C6 counterexample: two playlist ingestions of the same movie URL with a
renamed title.  The second sync observes an already-known providerUniqueId,
yet the stored name stays the one of the first sync, while the claim says
the mutable fields of the entity are refreshed in place by every ingestion
path, playlist ingestion included. -/
theorem entityLifecycle_cex :
    ((processM3u 1 20 noFail "#EXTINF:-1,Movie B\nhttp://h/movie/5.mp4"
        (processM3u 1 10 noFail "#EXTINF:-1,Movie A\nhttp://h/movie/5.mp4"
          ⟨[], [], [], [], [], [], [], 0, 0⟩).1).1.movies.map Entity.name =
      [some "Movie A"]) ∧
    some "Movie A" ≠ some "Movie B" := by
  constructor
  · decide
  · decide

/-- C6 amended: an entity is created on the first sync observing an unseen
providerUniqueId on either ingestion path (the structured-API insert branch
and the playlist insert branches, which append a fresh row carrying the new
id and that providerUniqueId); on every later structured-API sync its
mutable fields are refreshed in place with the internal id (and the whole
id column) untouched; on a later playlist sync the existing entity is left
entirely unchanged (fields included) and only its relation row is
rewritten. -/
theorem entityLifecycle :
    (∀ kind p t st inp i,
      jsGet st.idMap (puid kind p inp.nativeId) = some i →
      (upsertStep kind p t st (some inp)).entities =
          updateEntities st.entities i inp ∧
        (upsertStep kind p t st (some inp)).entities.map Entity.id =
          st.entities.map Entity.id) ∧
    (∀ kind p t st inp,
      jsGet st.idMap (puid kind p inp.nativeId) = none →
      (upsertStep kind p t st (some inp)).entities =
        st.entities ++ [newEntity (puid kind p inp.nativeId) st.nextId inp]) ∧
    (∀ p t st it i,
      jsGet st.idMap (puid "movie" p (m3uStreamId it.2)) = some i →
      (m3uMovieStep p t st it).entities = st.entities ∧
        (m3uMovieStep p t st it).rels = upsertRel st.rels
          ⟨p, i, m3uStreamId it.2, some (m3uExtension it.2), t⟩) ∧
    (∀ p t st it i,
      jsGet st.idMap (puid "series" p (m3uSeriesSlug it.1.name)) = some i →
      (m3uSeriesStep p t st it).entities = st.entities ∧
        (m3uSeriesStep p t st it).rels = upsertRel st.rels
          ⟨p, i, m3uSeriesSlug it.1.name, none, t⟩) ∧
    (∀ p t st it,
      jsGet st.idMap (puid "movie" p (m3uStreamId it.2)) = none →
      (m3uMovieStep p t st it).entities = st.entities ++
          [⟨st.nextId, some it.1.name,
            (extractYear4 it.1.name.data).map Int.ofNat, none,
            attrOrNone it.1 "tvg-logo",
            some (attrOrDflt it.1 "group-title" "VOD"),
            some (puid "movie" p (m3uStreamId it.2))⟩] ∧
        (m3uMovieStep p t st it).idMap =
          jsSet st.idMap (puid "movie" p (m3uStreamId it.2)) st.nextId ∧
        (m3uMovieStep p t st it).nextId = st.nextId + 1) ∧
    (∀ p t st it,
      jsGet st.idMap (puid "series" p (m3uSeriesSlug it.1.name)) = none →
      (m3uSeriesStep p t st it).entities = st.entities ++
          [⟨st.nextId, some it.1.name,
            (extractYear4 it.1.name.data).map Int.ofNat, none,
            attrOrNone it.1 "tvg-logo",
            some (attrOrDflt it.1 "group-title" "Series"),
            some (puid "series" p (m3uSeriesSlug it.1.name))⟩] ∧
        (m3uSeriesStep p t st it).idMap =
          jsSet st.idMap (puid "series" p (m3uSeriesSlug it.1.name))
            st.nextId ∧
        (m3uSeriesStep p t st it).nextId = st.nextId + 1) := by
  refine ⟨?_, ?_, ?_, ?_, ?_, ?_⟩
  · intro kind p t st inp i h
    rw [upsertStep_update kind p t st inp i h]
    exact ⟨rfl, map_id_updateEntities st.entities i inp⟩
  · intro kind p t st inp h
    rw [upsertStep_insert kind p t st inp h]
  · intro p t st it i h
    rw [m3uMovieStep_seen p t st it i h]
    exact ⟨rfl, rfl⟩
  · intro p t st it i h
    rw [m3uSeriesStep_seen p t st it i h]
    exact ⟨rfl, rfl⟩
  · intro p t st it h
    rw [m3uMovieStep_unseen p t st it h]
    exact ⟨rfl, rfl, rfl⟩
  · intro p t st it h
    rw [m3uSeriesStep_unseen p t st it h]
    exact ⟨rfl, rfl, rfl⟩

/-- Witness for C6 amended: a structured-API sync seeing a known key updates
in place; the same state fed to the playlist step leaves the entity rows
untouched. -/
theorem entityLifecycle_w :
    (upsertStep "movie" 1 20
        ⟨[⟨0, some "Movie A", none, none, none, some "VOD", some "movie_1_5"⟩],
          [("movie_1_5", 0)], [], 1⟩
        (some ⟨"5", some "Movie B", none, none, none, "VOD", some "mp4"⟩)).entities =
      updateEntities
        [⟨0, some "Movie A", none, none, none, some "VOD", some "movie_1_5"⟩] 0
        ⟨"5", some "Movie B", none, none, none, "VOD", some "mp4"⟩ :=
  (entityLifecycle.1 "movie" 1 20
    ⟨[⟨0, some "Movie A", none, none, none, some "VOD", some "movie_1_5"⟩],
      [("movie_1_5", 0)], [], 1⟩
    ⟨"5", some "Movie B", none, none, none, "VOD", some "mp4"⟩ 0 (by decide)).1

/-! ## Lemmas: transactional control flow -/

lemma runRows_noFail {σ α : Type} (step : σ → α → σ) (xs : List α) (i : Nat)
    (s : σ) : runRows step noFail xs i s = some (xs.foldl step s) := by
  induction xs generalizing i s with
  | nil => rfl
  | cons a as ih => simp [runRows, noFail, ih]

/-- C5: a Categories failure (for instance a throwing category fetch, or any
failed write in the category transaction) makes the whole run abort: the
store is exactly the one at run entry and the status trace holds only the
category messages ending in an error, so Movies, Series and Cleanup are
never attempted. -/
theorem categoriesFailureAborts :
    (∀ feeds fl p t s0,
      categoriesSection feeds.vodCats feeds.seriesCats fl.categoriesFail s0 =
        none →
      refreshVod feeds fl p t s0 =
        (s0, [(.categories, .info), (.categories, .error)])) ∧
    (∀ (sc : Except Unit (Option (List Category))) fail s0,
      categoriesSection (.error ()) sc fail s0 = none) := by
  constructor
  · intro feeds fl p t s0 h
    simp [refreshVod, h]
  · intro sc fail s0
    cases sc <;> rfl

/-- Witness for C5: a run whose VOD-category fetch throws leaves the store
untouched and reports only the category failure. -/
theorem categoriesFailureAborts_w :
    refreshVod ⟨.error (), .ok none, .ok none, .ok none⟩ noFaults 1 5
        ⟨[], [], [], [], [], [], [], 0, 0⟩ =
      (⟨[], [], [], [], [], [], [], 0, 0⟩,
        [(.categories, .info), (.categories, .error)]) :=
  categoriesFailureAborts.1 ⟨.error (), .ok none, .ok none, .ok none⟩
    noFaults 1 5 ⟨[], [], [], [], [], [], [], 0, 0⟩ (by rfl)

/-- C2: when the Movies phase fails (throwing fetch or failed write), its
transaction is rolled back so the store it passes on is exactly the
post-categories store, a movies error is reported, and the Series and
Cleanup phases still execute from that store; symmetrically a Series failure
passes the post-movies store on to Cleanup unchanged.  Earlier commits are
untouched in both cases. -/
theorem movieSeriesFailureIsolation :
    (∀ feeds fl p t s0 s1 cm,
      categoriesSection feeds.vodCats feeds.seriesCats fl.categoriesFail s0 =
        some (s1, cm) →
      (feeds.movies = .error () ∨ ∃ rows, feeds.movies = .ok (some rows) ∧
        moviesApply cm p t fl.moviesFail rows s1 = none) →
      moviesSection feeds.movies fl.moviesFail cm p t s1 =
          (s1, [(.movies, .info), (.movies, .error)]) ∧
        refreshVod feeds fl p t s0 =
          ((cleanupSection fl.cleanupFail p t
              (seriesSection feeds.series fl.seriesFail cm p t s1).1).1,
            [(.categories, .info)] ++
              [(.movies, .info), (.movies, .error)] ++
              (seriesSection feeds.series fl.seriesFail cm p t s1).2 ++
              (cleanupSection fl.cleanupFail p t
                (seriesSection feeds.series fl.seriesFail cm p t s1).1).2 ++
              [(.done, .success)])) ∧
    (∀ feeds fl p t s0 s1 cm,
      categoriesSection feeds.vodCats feeds.seriesCats fl.categoriesFail s0 =
        some (s1, cm) →
      (feeds.series = .error () ∨ ∃ rows, feeds.series = .ok (some rows) ∧
        seriesApply cm p t fl.seriesFail rows
          (moviesSection feeds.movies fl.moviesFail cm p t s1).1 = none) →
      seriesSection feeds.series fl.seriesFail cm p t
          (moviesSection feeds.movies fl.moviesFail cm p t s1).1 =
          ((moviesSection feeds.movies fl.moviesFail cm p t s1).1,
            [(.series, .info), (.series, .error)]) ∧
        refreshVod feeds fl p t s0 =
          ((cleanupSection fl.cleanupFail p t
              (moviesSection feeds.movies fl.moviesFail cm p t s1).1).1,
            [(.categories, .info)] ++
              (moviesSection feeds.movies fl.moviesFail cm p t s1).2 ++
              [(.series, .info), (.series, .error)] ++
              (cleanupSection fl.cleanupFail p t
                (moviesSection feeds.movies fl.moviesFail cm p t s1).1).2 ++
              [(.done, .success)])) := by
  constructor
  · intro feeds fl p t s0 s1 cm hcat hfail
    have hm : moviesSection feeds.movies fl.moviesFail cm p t s1 =
        (s1, [(.movies, .info), (.movies, .error)]) := by
      rcases hfail with h | ⟨rows, hr, hnone⟩
      · rw [h]; rfl
      · rw [hr]; simp [moviesSection, hnone]
    refine ⟨hm, ?_⟩
    simp only [refreshVod, hcat, hm]
  · intro feeds fl p t s0 s1 cm hcat hfail
    have hs : seriesSection feeds.series fl.seriesFail cm p t
        (moviesSection feeds.movies fl.moviesFail cm p t s1).1 =
        ((moviesSection feeds.movies fl.moviesFail cm p t s1).1,
          [(.series, .info), (.series, .error)]) := by
      rcases hfail with h | ⟨rows, hr, hnone⟩
      · rw [h]; rfl
      · rw [hr]; simp [seriesSection, hnone]
    refine ⟨hs, ?_⟩
    simp only [refreshVod, hcat, hs]

/-- Witness for C2: categories succeed on empty taxonomies, the movie fetch
throws, and the series and cleanup phases still run from the committed
post-categories store. -/
theorem movieSeriesFailureIsolation_w :
    moviesSection (Feeds.movies ⟨.ok none, .ok none, .error (), .ok none⟩)
        noFaults.moviesFail [] 1 5 ⟨[], [], [], [], [], [], [], 0, 0⟩ =
        (⟨[], [], [], [], [], [], [], 0, 0⟩,
          [(.movies, .info), (.movies, .error)]) ∧
      refreshVod ⟨.ok none, .ok none, .error (), .ok none⟩ noFaults 1 5
          ⟨[], [], [], [], [], [], [], 0, 0⟩ =
        ((cleanupSection noFaults.cleanupFail 1 5
            (seriesSection (Feeds.series ⟨.ok none, .ok none, .error (), .ok none⟩)
              noFaults.seriesFail [] 1 5
              ⟨[], [], [], [], [], [], [], 0, 0⟩).1).1,
          [(.categories, .info)] ++ [(.movies, .info), (.movies, .error)] ++
            (seriesSection (Feeds.series ⟨.ok none, .ok none, .error (), .ok none⟩)
              noFaults.seriesFail [] 1 5
              ⟨[], [], [], [], [], [], [], 0, 0⟩).2 ++
            (cleanupSection noFaults.cleanupFail 1 5
              (seriesSection (Feeds.series ⟨.ok none, .ok none, .error (), .ok none⟩)
                noFaults.seriesFail [] 1 5
                ⟨[], [], [], [], [], [], [], 0, 0⟩).1).2 ++
            [(.done, .success)]) :=
  movieSeriesFailureIsolation.1 ⟨.ok none, .ok none, .error (), .ok none⟩
    noFaults 1 5 ⟨[], [], [], [], [], [], [], 0, 0⟩
    ⟨[], [], [], [], [], [], [], 0, 0⟩ [] (by rfl) (.inl (by rfl))

/-- C10: the whole playlist ingestion runs in one transaction: if any write
of either the movie or the series loop fails, the store is exactly the one
at ingestion entry and an error is reported; if no write fails, both loops
commit together as one pure composition. -/
theorem m3uAtomicity :
    (∀ p t fail content s,
      m3uBody p t fail (m3uParse content).1 (m3uParse content).2 s = none →
      processM3u p t fail content s =
        (s, [(.movies, .info), (.movies, .error)])) ∧
    (∀ p t fail content s s2,
      m3uBody p t fail (m3uParse content).1 (m3uParse content).2 s = some s2 →
      processM3u p t fail content s =
        (s2, [(.movies, .info), (.done, .success)])) ∧
    (∀ p t ms ss s,
      m3uBody p t noFail ms ss s =
        some
          ({ s with
              movies := (ms.foldl (m3uMovieStep p t)
                ⟨s.movies, preloadIdMap s.movies, s.movieRels,
                  s.nextMovieId⟩).entities
              movieRels := (ms.foldl (m3uMovieStep p t)
                ⟨s.movies, preloadIdMap s.movies, s.movieRels,
                  s.nextMovieId⟩).rels
              nextMovieId := (ms.foldl (m3uMovieStep p t)
                ⟨s.movies, preloadIdMap s.movies, s.movieRels,
                  s.nextMovieId⟩).nextId
              series := (ss.foldl (m3uSeriesStep p t)
                ⟨s.series, preloadIdMap s.series, s.seriesRels,
                  s.nextSeriesId⟩).entities
              seriesRels := (ss.foldl (m3uSeriesStep p t)
                ⟨s.series, preloadIdMap s.series, s.seriesRels,
                  s.nextSeriesId⟩).rels
              nextSeriesId := (ss.foldl (m3uSeriesStep p t)
                ⟨s.series, preloadIdMap s.series, s.seriesRels,
                  s.nextSeriesId⟩).nextId })) := by
  refine ⟨?_, ?_, ?_⟩
  · intro p t fail content s h
    simp [processM3u, h]
  · intro p t fail content s s2 h
    simp [processM3u, h]
  · intro p t ms ss s
    simp [m3uBody, runRows_noFail]

/-- Witness for C10: a single failing write rolls the whole ingestion back
to the entry store. -/
theorem m3uAtomicity_w :
    processM3u 1 10 (fun _ => true)
        "#EXTINF:-1,Movie A\nhttp://h/movie/5.mp4"
        ⟨[], [], [], [], [], [], [], 0, 0⟩ =
      (⟨[], [], [], [], [], [], [], 0, 0⟩,
        [(.movies, .info), (.movies, .error)]) :=
  m3uAtomicity.1 1 10 (fun _ => true)
    "#EXTINF:-1,Movie A\nhttp://h/movie/5.mp4"
    ⟨[], [], [], [], [], [], [], 0, 0⟩ (by decide)

/-! ## Lemmas: the upsert invariant -/

lemma applyInput_id (inp : UpsertInput) (e : Entity) :
    (applyInput inp e).id = e.id := rfl

lemma applyInput_puid (inp : UpsertInput) (e : Entity) :
    (applyInput inp e).provider_unique_id = e.provider_unique_id := rfl

lemma applyInput_applyInput (inp inp2 : UpsertInput) (e : Entity) :
    applyInput inp (applyInput inp2 e) = applyInput inp e := rfl

lemma applyInput_newEntity (inp : UpsertInput) (u : String) (i : Nat) :
    applyInput inp (newEntity u i inp) = newEntity u i inp := rfl

lemma mem_updateEntities (es : List Entity) (i : Nat) (inp : UpsertInput)
    (x : Entity) :
    x ∈ updateEntities es i inp ↔
      ∃ e ∈ es, x = if e.id = i then applyInput inp e else e := by
  simp [updateEntities, List.mem_map, eq_comm]

lemma updateEntities_keeps_id (es : List Entity) (i : Nat)
    (inp : UpsertInput) (e : Entity) (he : e ∈ es) :
    (if e.id = i then applyInput inp e else e).id = e.id := by
  by_cases h : e.id = i <;> simp [h, applyInput_id]

lemma WFE_sublist (es es2 : List Entity) (next : Nat)
    (hsub : ∀ e ∈ es2, e ∈ es) (h : WFE es next) : WFE es2 next := by
  obtain ⟨h1, h2, h3⟩ := h
  exact ⟨fun e he => h1 e (hsub e he),
    fun a ha b hb => h2 a (hsub a ha) b (hsub b hb),
    fun a ha b hb => h3 a (hsub a ha) b (hsub b hb)⟩

lemma WFE_tail (e : Entity) (es : List Entity) (next : Nat)
    (h : WFE (e :: es) next) : WFE es next :=
  WFE_sublist (e :: es) es next (fun x hx => List.mem_cons_of_mem e hx) h

lemma mapSync_preload (es : List Entity) (next : Nat) (h : WFE es next) :
    mapSync (preloadIdMap es) es := by
  induction es with
  | nil =>
    intro u i
    simp [preloadIdMap, jsGet]
  | cons e es ih =>
    have hes := ih (WFE_tail e es next h)
    intro u i
    cases hpu : e.provider_unique_id with
    | none =>
      have hpre : preloadIdMap (e :: es) = preloadIdMap es := by
        simp [preloadIdMap, hpu]
      rw [hpre, hes u i]
      constructor
      · rintro ⟨x, hx, hxi, hxu⟩
        exact ⟨x, List.mem_cons_of_mem e hx, hxi, hxu⟩
      · rintro ⟨x, hx, hxi, hxu⟩
        rcases List.mem_cons.mp hx with hxe | hxes
        · subst hxe; rw [hpu] at hxu; cases hxu
        · exact ⟨x, hxes, hxi, hxu⟩
    | some u0 =>
      have hpre : preloadIdMap (e :: es) = (u0, e.id) :: preloadIdMap es := by
        simp [preloadIdMap, hpu]
      rw [hpre, jsGet_cons]
      cases hm : jsGet (preloadIdMap es) u with
      | some v =>
        obtain ⟨x, hx, hxi, hxu⟩ := (hes u v).mp hm
        constructor
        · intro hvi
          obtain rfl : v = i := by simpa using hvi
          exact ⟨x, List.mem_cons_of_mem e hx, hxi, hxu⟩
        · rintro ⟨y, hy, hyi, hyu⟩
          rcases List.mem_cons.mp hy with hye | hyes
          · subst hye
            rw [hpu] at hyu
            obtain rfl : u0 = u := by simpa using hyu
            have hxy : x = y :=
              h.2.2 x (List.mem_cons_of_mem y hx) y (List.mem_cons_self y es)
                u0 hxu hpu
            rw [← hyi, ← hxy, hxi]
          · have hxy : x = y :=
              h.2.2 x (List.mem_cons_of_mem e hx) y (List.mem_cons_of_mem e hyes)
                u hxu hyu
            rw [← hyi, ← hxy, hxi]
      | none =>
        by_cases hu : u0 = u
        · subst hu
          simp only [if_pos rfl]
          constructor
          · intro hei
            obtain rfl : e.id = i := by simpa using hei
            exact ⟨e, List.mem_cons_self e es, rfl, hpu⟩
          · rintro ⟨y, hy, hyi, hyu⟩
            rcases List.mem_cons.mp hy with hye | hyes
            · subst hye; simp [hyi]
            · exact absurd ((hes u0 y.id).mpr ⟨y, hyes, rfl, hyu⟩)
                (by rw [hm]; intro hc; cases hc)
        · simp only [if_neg hu]
          constructor
          · intro hc; cases hc
          · rintro ⟨y, hy, hyi, hyu⟩
            rcases List.mem_cons.mp hy with hye | hyes
            · subst hye
              rw [hpu] at hyu
              exact absurd (by simpa using hyu) hu
            · exact absurd ((hes u y.id).mpr ⟨y, hyes, rfl, hyu⟩)
                (by rw [hm]; intro hc; cases hc)

lemma WFE_updateEntities (es : List Entity) (next i : Nat)
    (inp : UpsertInput) (h : WFE es next) :
    WFE (updateEntities es i inp) next := by
  obtain ⟨h1, h2, h3⟩ := h
  refine ⟨?_, ?_, ?_⟩
  · intro x hx
    obtain ⟨e, he, rfl⟩ := (mem_updateEntities es i inp x).mp hx
    rw [updateEntities_keeps_id es i inp e he]
    exact h1 e he
  · intro a ha b hb hab
    obtain ⟨ea, hea, rfl⟩ := (mem_updateEntities es i inp a).mp ha
    obtain ⟨eb, heb, rfl⟩ := (mem_updateEntities es i inp b).mp hb
    rw [updateEntities_keeps_id es i inp ea hea,
      updateEntities_keeps_id es i inp eb heb] at hab
    rw [h2 ea hea eb heb hab]
  · intro a ha b hb u hau hbu
    obtain ⟨ea, hea, rfl⟩ := (mem_updateEntities es i inp a).mp ha
    obtain ⟨eb, heb, rfl⟩ := (mem_updateEntities es i inp b).mp hb
    have hau2 : ea.provider_unique_id = some u := by
      by_cases hia : ea.id = i
      · rw [if_pos hia, applyInput_puid] at hau; exact hau
      · rw [if_neg hia] at hau; exact hau
    have hbu2 : eb.provider_unique_id = some u := by
      by_cases hib : eb.id = i
      · rw [if_pos hib, applyInput_puid] at hbu; exact hbu
      · rw [if_neg hib] at hbu; exact hbu
    rw [h3 ea hea eb heb u hau2 hbu2]

lemma mapSync_updateEntities (m : List (String × Nat)) (es : List Entity)
    (i : Nat) (inp : UpsertInput) (h : mapSync m es) :
    mapSync m (updateEntities es i inp) := by
  intro u j
  rw [h u j]
  constructor
  · rintro ⟨e, he, hei, heu⟩
    refine ⟨if e.id = i then applyInput inp e else e,
      (mem_updateEntities es i inp _).mpr ⟨e, he, rfl⟩, ?_, ?_⟩
    · rw [updateEntities_keeps_id es i inp e he, hei]
    · by_cases hc : e.id = i
      · rw [if_pos hc, applyInput_puid]; exact heu
      · rw [if_neg hc]; exact heu
  · rintro ⟨x, hx, hxi, hxu⟩
    obtain ⟨e, he, rfl⟩ := (mem_updateEntities es i inp x).mp hx
    rw [updateEntities_keeps_id es i inp e he] at hxi
    refine ⟨e, he, hxi, ?_⟩
    by_cases hc : e.id = i
    · rw [if_pos hc, applyInput_puid] at hxu; exact hxu
    · rw [if_neg hc] at hxu; exact hxu

lemma step_Inv (kind : String) (p t : Nat) (st : PhaseState)
    (oi : Option UpsertInput) (h : Inv st) :
    Inv (upsertStep kind p t st oi) := by
  obtain ⟨hwf, hsync⟩ := h
  match oi with
  | none => exact ⟨hwf, hsync⟩
  | some inp =>
    cases hg : jsGet st.idMap (puid kind p inp.nativeId) with
    | some i =>
      rw [upsertStep_update kind p t st inp i hg]
      exact ⟨WFE_updateEntities st.entities st.nextId i inp hwf,
        mapSync_updateEntities st.idMap st.entities i inp hsync⟩
    | none =>
      rw [upsertStep_insert kind p t st inp hg]
      have hnew : ∀ e ∈ st.entities,
          e.provider_unique_id ≠ some (puid kind p inp.nativeId) := by
        intro e he hc
        have := (hsync (puid kind p inp.nativeId) e.id).mpr ⟨e, he, rfl, hc⟩
        rw [hg] at this
        cases this
      constructor
      · refine ⟨?_, ?_, ?_⟩
        · intro e he
          rcases List.mem_append.mp he with hes | hn
          · exact Nat.lt_succ_of_lt (hwf.1 e hes)
          · rw [List.mem_singleton.mp hn]
            exact Nat.lt_succ_self _
        · intro a ha b hb hab
          rcases List.mem_append.mp ha with has | han <;>
            rcases List.mem_append.mp hb with hbs | hbn
          · exact hwf.2.1 a has b hbs hab
          · rw [List.mem_singleton.mp hbn] at hab ⊢
            exact absurd hab (Nat.ne_of_lt (hwf.1 a has))
          · rw [List.mem_singleton.mp han] at hab ⊢
            exact absurd hab.symm (Nat.ne_of_lt (hwf.1 b hbs))
          · rw [List.mem_singleton.mp han, List.mem_singleton.mp hbn]
        · intro a ha b hb u hau hbu
          rcases List.mem_append.mp ha with has | han <;>
            rcases List.mem_append.mp hb with hbs | hbn
          · exact hwf.2.2 a has b hbs u hau hbu
          · rw [List.mem_singleton.mp hbn] at hbu
            obtain rfl : puid kind p inp.nativeId = u := Option.some.inj hbu
            exact absurd hau (hnew a has)
          · rw [List.mem_singleton.mp han] at hau
            obtain rfl : puid kind p inp.nativeId = u := Option.some.inj hau
            exact absurd hbu (hnew b hbs)
          · rw [List.mem_singleton.mp han, List.mem_singleton.mp hbn]
      · intro u j
        show jsGet (jsSet st.idMap (puid kind p inp.nativeId) st.nextId) u =
          some j ↔ _
        rw [jsSet, jsGet_append_single]
        by_cases hu : puid kind p inp.nativeId = u
        · rw [if_pos hu]
          constructor
          · intro hj
            obtain rfl : st.nextId = j := by simpa using hj
            exact ⟨newEntity (puid kind p inp.nativeId) st.nextId inp,
              List.mem_append.mpr (Or.inr (List.mem_singleton_self _)),
              rfl, by rw [← hu]; rfl⟩
          · rintro ⟨e, he, hei, heu⟩
            rcases List.mem_append.mp he with hes | hn
            · rw [← hu] at heu
              exact absurd heu (hnew e hes)
            · rw [List.mem_singleton.mp hn] at hei
              rw [← hei]
              rfl
        · rw [if_neg hu, hsync u j]
          constructor
          · rintro ⟨e, he, hei, heu⟩
            exact ⟨e, List.mem_append.mpr (Or.inl he), hei, heu⟩
          · rintro ⟨e, he, hei, heu⟩
            rcases List.mem_append.mp he with hes | hn
            · exact ⟨e, hes, hei, heu⟩
            · rw [List.mem_singleton.mp hn] at heu
              exact absurd (Option.some.inj heu) hu

lemma run_Inv (kind : String) (p t : Nat)
    (inputs : List (Option UpsertInput)) (st : PhaseState) (h : Inv st) :
    Inv (runUpsert kind p t inputs st) := by
  induction inputs generalizing st with
  | nil => exact h
  | cons oi rest ih =>
    exact ih (upsertStep kind p t st oi) (step_Inv kind p t st oi h)

lemma step_entities_mono (kind : String) (p t : Nat) (st : PhaseState)
    (oi : Option UpsertInput) (e : Entity) (he : e ∈ st.entities) :
    ∃ x ∈ (upsertStep kind p t st oi).entities,
      x.id = e.id ∧ x.provider_unique_id = e.provider_unique_id := by
  match oi with
  | none => exact ⟨e, he, rfl, rfl⟩
  | some inp =>
    cases hg : jsGet st.idMap (puid kind p inp.nativeId) with
    | some i =>
      rw [upsertStep_update kind p t st inp i hg]
      refine ⟨if e.id = i then applyInput inp e else e,
        (mem_updateEntities st.entities i inp _).mpr ⟨e, he, rfl⟩, ?_, ?_⟩
      · exact updateEntities_keeps_id st.entities i inp e he
      · by_cases hc : e.id = i
        · rw [if_pos hc, applyInput_puid]
        · rw [if_neg hc]
    | none =>
      rw [upsertStep_insert kind p t st inp hg]
      exact ⟨e, List.mem_append.mpr (Or.inl he), rfl, rfl⟩

lemma run_entities_mono (kind : String) (p t : Nat)
    (inputs : List (Option UpsertInput)) (st : PhaseState) (e : Entity)
    (he : e ∈ st.entities) :
    ∃ x ∈ (runUpsert kind p t inputs st).entities,
      x.id = e.id ∧ x.provider_unique_id = e.provider_unique_id := by
  induction inputs generalizing st e with
  | nil => exact ⟨e, he, rfl, rfl⟩
  | cons oi rest ih =>
    obtain ⟨x, hx, hxi, hxu⟩ := step_entities_mono kind p t st oi e he
    obtain ⟨y, hy, hyi, hyu⟩ := ih (upsertStep kind p t st oi) x hx
    exact ⟨y, hy, hyi.trans hxi, hyu.trans hxu⟩

lemma step_map_mono (kind : String) (p t : Nat) (st : PhaseState)
    (oi : Option UpsertInput) (u : String) (i : Nat)
    (h : jsGet st.idMap u = some i) :
    jsGet (upsertStep kind p t st oi).idMap u = some i := by
  match oi with
  | none => exact h
  | some inp =>
    cases hg : jsGet st.idMap (puid kind p inp.nativeId) with
    | some j => rw [upsertStep_update kind p t st inp j hg]; exact h
    | none =>
      rw [upsertStep_insert kind p t st inp hg]
      show jsGet (jsSet st.idMap (puid kind p inp.nativeId) st.nextId) u = _
      rw [jsSet, jsGet_append_single]
      by_cases hu : puid kind p inp.nativeId = u
      · rw [hu] at hg
        rw [hg] at h
        cases h
      · rw [if_neg hu]
        exact h

lemma run_map_mono (kind : String) (p t : Nat)
    (inputs : List (Option UpsertInput)) (st : PhaseState) (u : String)
    (i : Nat) (h : jsGet st.idMap u = some i) :
    jsGet (runUpsert kind p t inputs st).idMap u = some i := by
  induction inputs generalizing st with
  | nil => exact h
  | cons oi rest ih =>
    exact ih (upsertStep kind p t st oi)
      (step_map_mono kind p t st oi u i h)

lemma step_registers (kind : String) (p t : Nat) (st : PhaseState)
    (inp : UpsertInput) :
    ∃ i, jsGet (upsertStep kind p t st (some inp)).idMap
      (puid kind p inp.nativeId) = some i := by
  cases hg : jsGet st.idMap (puid kind p inp.nativeId) with
  | some j =>
    refine ⟨j, ?_⟩
    rw [upsertStep_update kind p t st inp j hg]
    exact hg
  | none =>
    refine ⟨st.nextId, ?_⟩
    rw [upsertStep_insert kind p t st inp hg]
    show jsGet (jsSet st.idMap (puid kind p inp.nativeId) st.nextId) _ = _
    rw [jsSet, jsGet_append_single, if_pos rfl]

lemma run_coverage (kind : String) (p t : Nat)
    (inputs : List (Option UpsertInput)) (st : PhaseState)
    (inp : UpsertInput) (hmem : some inp ∈ inputs) :
    ∃ i, jsGet (runUpsert kind p t inputs st).idMap
      (puid kind p inp.nativeId) = some i := by
  induction inputs generalizing st with
  | nil => cases hmem
  | cons oi rest ih =>
    rcases List.mem_cons.mp hmem with hhd | htl
    · subst hhd
      obtain ⟨i, hi⟩ := step_registers kind p t st inp
      exact ⟨i, run_map_mono kind p t rest _ _ i hi⟩
    · exact ih (upsertStep kind p t st oi) htl

lemma runUpsert_cons (kind : String) (p t : Nat) (oi : Option UpsertInput)
    (rest : List (Option UpsertInput)) (st : PhaseState) :
    runUpsert kind p t (oi :: rest) st =
      runUpsert kind p t rest (upsertStep kind p t st oi) := rfl

lemma runUpsert_append_single (kind : String) (p t : Nat)
    (xs : List (Option UpsertInput)) (oi : Option UpsertInput)
    (st : PhaseState) :
    runUpsert kind p t (xs ++ [oi]) st =
      upsertStep kind p t (runUpsert kind p t xs st) oi := by
  simp [runUpsert, List.foldl_append]

lemma lastTouch_append_some (kind : String) (p : Nat)
    (xs : List (Option UpsertInput)) (inp0 : UpsertInput) (u : String) :
    lastTouch kind p (xs ++ [some inp0]) u =
      if puid kind p inp0.nativeId = u then some inp0
      else lastTouch kind p xs u := by
  simp [lastTouch, List.foldl_append]

lemma lastTouch_append_none (kind : String) (p : Nat)
    (xs : List (Option UpsertInput)) (u : String) :
    lastTouch kind p (xs ++ [none]) u = lastTouch kind p xs u := by
  simp [lastTouch, List.foldl_append]

lemma lastInputFor_append_some (kind : String) (p : Nat)
    (m : List (String × Nat)) (xs : List (Option UpsertInput))
    (inp0 : UpsertInput) (i : Nat) :
    lastInputFor kind p m (xs ++ [some inp0]) i =
      if jsGet m (puid kind p inp0.nativeId) = some i then some inp0
      else lastInputFor kind p m xs i := by
  simp [lastInputFor, List.foldl_append]

lemma lastInputFor_append_none (kind : String) (p : Nat)
    (m : List (String × Nat)) (xs : List (Option UpsertInput)) (i : Nat) :
    lastInputFor kind p m (xs ++ [none]) i =
      lastInputFor kind p m xs i := by
  simp [lastInputFor, List.foldl_append]

lemma run_no_insert (kind : String) (p t : Nat)
    (inputs : List (Option UpsertInput)) (st : PhaseState)
    (H : ∀ inp, some inp ∈ inputs →
      ∃ i, jsGet st.idMap (puid kind p inp.nativeId) = some i) :
    (runUpsert kind p t inputs st).idMap = st.idMap ∧
      (runUpsert kind p t inputs st).nextId = st.nextId ∧
      (runUpsert kind p t inputs st).entities =
        replayU kind p st.idMap inputs st.entities := by
  induction inputs generalizing st with
  | nil => exact ⟨rfl, rfl, rfl⟩
  | cons oi rest ih =>
    match oi with
    | none =>
      rw [runUpsert_cons]
      exact ih st (fun inp hm => H inp (List.mem_cons_of_mem none hm))
    | some inp =>
      obtain ⟨i, hi⟩ := H inp (List.mem_cons_self _ _)
      rw [runUpsert_cons, upsertStep_update kind p t st inp i hi]
      have hmap : ({ st with
          entities := updateEntities st.entities i inp
          rels := upsertRel st.rels
            ⟨p, i, inp.nativeId, inp.extra, t⟩ } : PhaseState).idMap =
          st.idMap := rfl
      obtain ⟨h1, h2, h3⟩ := ih
        { st with
          entities := updateEntities st.entities i inp
          rels := upsertRel st.rels ⟨p, i, inp.nativeId, inp.extra, t⟩ }
        (fun inp2 hm => by
          rw [hmap]
          exact H inp2 (List.mem_cons_of_mem _ hm))
      refine ⟨by rw [h1], by rw [h2], ?_⟩
      rw [h3]
      show replayU kind p st.idMap rest (updateEntities st.entities i inp) =
        replayU kind p st.idMap (some inp :: rest) st.entities
      simp [replayU, hi]

lemma replayU_char (kind : String) (p : Nat) (m : List (String × Nat))
    (inputs : List (Option UpsertInput)) (es : List Entity) :
    replayU kind p m inputs es =
      es.map (fun e =>
        match lastInputFor kind p m inputs e.id with
        | some inp => applyInput inp e
        | none => e) := by
  induction inputs using List.reverseRecOn with
  | nil =>
    simp [replayU, lastInputFor]
  | append_singleton xs oi ih =>
    match oi with
    | none =>
      have hrep : replayU kind p m (xs ++ [none]) es =
          replayU kind p m xs es := by
        simp [replayU, List.foldl_append]
      rw [hrep, ih]
      apply List.map_congr_left
      intro e _
      rw [lastInputFor_append_none]
    | some inp0 =>
      cases hg : jsGet m (puid kind p inp0.nativeId) with
      | none =>
        have hrep : replayU kind p m (xs ++ [some inp0]) es =
            replayU kind p m xs es := by
          simp [replayU, List.foldl_append, hg]
        rw [hrep, ih]
        apply List.map_congr_left
        intro e _
        rw [lastInputFor_append_some]
        simp [hg]
      | some i0 =>
        have hrep : replayU kind p m (xs ++ [some inp0]) es =
            updateEntities (replayU kind p m xs es) i0 inp0 := by
          simp [replayU, List.foldl_append, hg]
        rw [hrep, ih, updateEntities, List.map_map]
        apply List.map_congr_left
        intro e _
        rw [Function.comp_apply, lastInputFor_append_some]
        have hgid : (match lastInputFor kind p m xs e.id with
            | some inp => applyInput inp e
            | none => e).id = e.id := by
          cases lastInputFor kind p m xs e.id with
          | none => rfl
          | some inp => exact applyInput_id inp e
        by_cases hei : e.id = i0
        · have hcond : jsGet m (puid kind p inp0.nativeId) = some e.id := by
            rw [hg, hei]
          rw [if_pos hcond]
          show (if (match lastInputFor kind p m xs e.id with
              | some inp => applyInput inp e
              | none => e).id = i0 then
              applyInput inp0 (match lastInputFor kind p m xs e.id with
                | some inp => applyInput inp e
                | none => e)
            else (match lastInputFor kind p m xs e.id with
              | some inp => applyInput inp e
              | none => e)) = applyInput inp0 e
          rw [hgid, if_pos hei]
          cases lastInputFor kind p m xs e.id with
          | none => rfl
          | some inp => exact applyInput_applyInput inp0 inp e
        · have hcond : ¬(jsGet m (puid kind p inp0.nativeId) = some e.id) := by
            rw [hg]
            intro hc
            exact hei (Option.some.inj hc).symm
          rw [if_neg hcond]
          show (if (match lastInputFor kind p m xs e.id with
              | some inp => applyInput inp e
              | none => e).id = i0 then
              applyInput inp0 (match lastInputFor kind p m xs e.id with
                | some inp => applyInput inp e
                | none => e)
            else (match lastInputFor kind p m xs e.id with
              | some inp => applyInput inp e
              | none => e)) =
            match lastInputFor kind p m xs e.id with
            | some inp => applyInput inp e
            | none => e
          rw [hgid, if_neg hei]

lemma run_fields_lastTouch (kind : String) (p t : Nat)
    (inputs : List (Option UpsertInput)) (st : PhaseState) (hinv : Inv st) :
    ∀ e ∈ (runUpsert kind p t inputs st).entities, ∀ u inp,
      e.provider_unique_id = some u → lastTouch kind p inputs u = some inp →
      applyInput inp e = e := by
  induction inputs using List.reverseRecOn with
  | nil =>
    intro e he u inp hu hl
    simp [lastTouch] at hl
  | append_singleton xs oi ih =>
    intro e he u inp hu hl
    rw [runUpsert_append_single] at he
    have hinv1 : Inv (runUpsert kind p t xs st) :=
      run_Inv kind p t xs st hinv
    match oi with
    | none =>
      rw [lastTouch_append_none] at hl
      exact ih e he u inp hu hl
    | some inp0 =>
      rw [lastTouch_append_some] at hl
      by_cases hu0 : puid kind p inp0.nativeId = u
      · rw [if_pos hu0] at hl
        obtain rfl : inp0 = inp := Option.some.inj hl
        cases hg : jsGet (runUpsert kind p t xs st).idMap
            (puid kind p inp0.nativeId) with
        | some i0 =>
          rw [upsertStep_update kind p t _ inp0 i0 hg] at he
          obtain ⟨e1, he1, rfl⟩ :=
            (mem_updateEntities (runUpsert kind p t xs st).entities i0 inp0
              _).mp he
          by_cases hc : e1.id = i0
          · rw [if_pos hc]
            exact applyInput_applyInput inp0 inp0 e1
          · rw [if_neg hc] at hu ⊢
            obtain ⟨e2, he2, he2i, he2u⟩ := (hinv1.2 _ i0).mp hg
            rw [hu0] at he2u
            have : e2 = e1 := hinv1.1.2.2 e2 he2 e1 he1 u he2u hu
            rw [this] at he2i
            exact absurd he2i hc
        | none =>
          rw [upsertStep_insert kind p t _ inp0 hg] at he
          rcases List.mem_append.mp he with hes | hn
          · rw [← hu0] at hu
            have := (hinv1.2 (puid kind p inp0.nativeId) e.id).mpr
              ⟨e, hes, rfl, hu⟩
            rw [hg] at this
            cases this
          · rw [List.mem_singleton.mp hn]
            exact applyInput_newEntity inp0 (puid kind p inp0.nativeId)
              (runUpsert kind p t xs st).nextId
      · rw [if_neg hu0] at hl
        cases hg : jsGet (runUpsert kind p t xs st).idMap
            (puid kind p inp0.nativeId) with
        | some i0 =>
          rw [upsertStep_update kind p t _ inp0 i0 hg] at he
          obtain ⟨e1, he1, rfl⟩ :=
            (mem_updateEntities (runUpsert kind p t xs st).entities i0 inp0
              _).mp he
          by_cases hc : e1.id = i0
          · rw [if_pos hc] at hu ⊢
            rw [applyInput_puid] at hu
            obtain ⟨e2, he2, he2i, he2u⟩ := (hinv1.2 _ i0).mp hg
            have he21 : e2 = e1 :=
              hinv1.1.2.1 e2 he2 e1 he1 (by rw [he2i, hc])
            rw [he21] at he2u
            rw [he2u] at hu
            exact absurd (Option.some.inj hu) hu0
          · rw [if_neg hc] at hu ⊢
            exact ih e1 he1 u inp hu hl
        | none =>
          rw [upsertStep_insert kind p t _ inp0 hg] at he
          rcases List.mem_append.mp he with hes | hn
          · exact ih e hes u inp hu hl
          · rw [List.mem_singleton.mp hn] at hu
            exact absurd (Option.some.inj hu) hu0

lemma lastInputFor_eq_lastTouch (kind : String) (p : Nat)
    (m : List (String × Nat)) (es : List Entity) (next : Nat)
    (inputs : List (Option UpsertInput)) (e : Entity)
    (hwf : WFE es next) (hsync : mapSync m es) (he : e ∈ es) :
    lastInputFor kind p m inputs e.id =
      match e.provider_unique_id with
      | some u => lastTouch kind p inputs u
      | none => none := by
  induction inputs using List.reverseRecOn with
  | nil =>
    cases e.provider_unique_id <;> simp [lastInputFor, lastTouch]
  | append_singleton xs oi ih =>
    match oi with
    | none =>
      rw [lastInputFor_append_none, ih]
      cases hpu : e.provider_unique_id with
      | none => rfl
      | some u =>
        show lastTouch kind p xs u = lastTouch kind p (xs ++ [none]) u
        rw [lastTouch_append_none]
    | some inp0 =>
      rw [lastInputFor_append_some]
      have hkey : jsGet m (puid kind p inp0.nativeId) = some e.id ↔
          e.provider_unique_id = some (puid kind p inp0.nativeId) := by
        constructor
        · intro hj
          obtain ⟨e2, he2, he2i, he2u⟩ :=
            (hsync (puid kind p inp0.nativeId) e.id).mp hj
          have : e2 = e := hwf.2.1 e2 he2 e he he2i
          rw [← this, he2u]
        · intro hpe
          exact (hsync (puid kind p inp0.nativeId) e.id).mpr ⟨e, he, rfl, hpe⟩
      cases hpu : e.provider_unique_id with
      | none =>
        have hcond : ¬(jsGet m (puid kind p inp0.nativeId) = some e.id) := by
          intro hc
          rw [hpu] at hkey
          cases hkey.mp hc
        rw [if_neg hcond, ih, hpu]
      | some u =>
        show (if jsGet m (puid kind p inp0.nativeId) = some e.id then some inp0
            else lastInputFor kind p m xs e.id) =
          lastTouch kind p (xs ++ [some inp0]) u
        rw [lastTouch_append_some]
        by_cases huu : puid kind p inp0.nativeId = u
        · have hcond : jsGet m (puid kind p inp0.nativeId) = some e.id := by
            rw [hpu] at hkey
            exact hkey.mpr (by rw [huu])
          rw [if_pos hcond, if_pos huu]
        · have hcond : ¬(jsGet m (puid kind p inp0.nativeId) = some e.id) := by
            intro hc
            rw [hpu] at hkey
            exact huu (Option.some.inj (hkey.mp hc)).symm
          rw [if_neg hcond, if_neg huu, ih, hpu]

/-! ## Lemmas: relation rows through an upsert run -/

lemma mem_upsertRel (rels : List Rel) (r0 r : Rel) :
    r ∈ upsertRel rels r0 ↔
      (r ∈ rels ∧
        ¬(r.provider_id = r0.provider_id ∧ r.native_id = r0.native_id)) ∨
      r = r0 := by
  simp only [upsertRel, List.mem_append, List.mem_filter,
    List.mem_singleton, Bool.not_eq_true', Bool.and_eq_false_iff,
    beq_eq_false_iff_ne, ne_eq]
  tauto

lemma step_rels_keep_nonp (kind : String) (p t : Nat) (st : PhaseState)
    (oi : Option UpsertInput) (r : Rel) (hr : r ∈ st.rels)
    (hp : r.provider_id ≠ p) : r ∈ (upsertStep kind p t st oi).rels := by
  match oi with
  | none => exact hr
  | some inp =>
    cases hg : jsGet st.idMap (puid kind p inp.nativeId) with
    | some i =>
      rw [upsertStep_update kind p t st inp i hg]
      exact (mem_upsertRel _ _ _).mpr (Or.inl ⟨hr, fun hc => hp hc.1⟩)
    | none =>
      rw [upsertStep_insert kind p t st inp hg]
      exact (mem_upsertRel _ _ _).mpr (Or.inl ⟨hr, fun hc => hp hc.1⟩)

lemma run_rels_keep_nonp (kind : String) (p t : Nat)
    (inputs : List (Option UpsertInput)) (st : PhaseState) (r : Rel)
    (hr : r ∈ st.rels) (hp : r.provider_id ≠ p) :
    r ∈ (runUpsert kind p t inputs st).rels := by
  induction inputs generalizing st with
  | nil => exact hr
  | cons oi rest ih =>
    exact ih (upsertStep kind p t st oi)
      (step_rels_keep_nonp kind p t st oi r hr hp)

lemma run_rels_origin (kind : String) (p t : Nat)
    (inputs : List (Option UpsertInput)) (st : PhaseState) (hinv : Inv st)
    (r : Rel) (hr : r ∈ (runUpsert kind p t inputs st).rels) :
    r ∈ st.rels ∨
      (r.provider_id = p ∧ r.last_seen = t ∧
        ∃ inp, some inp ∈ inputs ∧ r.native_id = inp.nativeId ∧
          ∃ e ∈ (runUpsert kind p t inputs st).entities,
            e.id = r.entity_id ∧
            e.provider_unique_id = some (puid kind p inp.nativeId)) := by
  induction inputs generalizing st with
  | nil => exact Or.inl hr
  | cons oi rest ih =>
    rw [runUpsert_cons] at hr
    have hinv1 : Inv (upsertStep kind p t st oi) :=
      step_Inv kind p t st oi hinv
    rcases ih (upsertStep kind p t st oi) hinv1 hr with
      hl | ⟨hp, ht, inp, hmem, hnat, e, he, hei, heu⟩
    · match oi with
      | none => exact Or.inl hl
      | some inp0 =>
        cases hg : jsGet st.idMap (puid kind p inp0.nativeId) with
        | some i0 =>
          rw [upsertStep_update kind p t st inp0 i0 hg] at hl
          rcases (mem_upsertRel _ _ _).mp hl with ⟨hmem0, _⟩ | rfl
          · exact Or.inl hmem0
          · refine Or.inr ⟨rfl, rfl, inp0, List.mem_cons_self _ _, rfl, ?_⟩
            obtain ⟨e0, he0, he0i, he0u⟩ := (hinv.2 _ i0).mp hg
            obtain ⟨e1, he1, he1i, he1u⟩ :=
              step_entities_mono kind p t st (some inp0) e0 he0
            obtain ⟨e2, he2, he2i, he2u⟩ :=
              run_entities_mono kind p t rest _ e1 he1
            rw [runUpsert_cons]
            exact ⟨e2, he2, by rw [he2i, he1i, he0i], by
              rw [he2u, he1u, he0u]⟩
        | none =>
          rw [upsertStep_insert kind p t st inp0 hg] at hl
          rcases (mem_upsertRel _ _ _).mp hl with ⟨hmem0, _⟩ | rfl
          · exact Or.inl hmem0
          · refine Or.inr ⟨rfl, rfl, inp0, List.mem_cons_self _ _, rfl, ?_⟩
            have hn : newEntity (puid kind p inp0.nativeId) st.nextId inp0 ∈
                (upsertStep kind p t st (some inp0)).entities := by
              rw [upsertStep_insert kind p t st inp0 hg]
              exact List.mem_append.mpr (Or.inr (List.mem_singleton_self _))
            obtain ⟨e2, he2, he2i, he2u⟩ :=
              run_entities_mono kind p t rest _ _ hn
            rw [runUpsert_cons]
            exact ⟨e2, he2, he2i, he2u⟩
    · exact Or.inr ⟨hp, ht, inp, List.mem_cons_of_mem oi hmem, hnat,
        e, by rw [runUpsert_cons]; exact he, hei, heu⟩

lemma step_rel_witness_persist (kind : String) (p t : Nat) (st : PhaseState)
    (oi : Option UpsertInput) (hinv : Inv st) (n : String)
    (h : ∃ r ∈ st.rels, r.provider_id = p ∧ r.native_id = n ∧
      r.last_seen = t ∧ ∃ e ∈ st.entities, e.id = r.entity_id ∧
        e.provider_unique_id = some (puid kind p n)) :
    ∃ r ∈ (upsertStep kind p t st oi).rels, r.provider_id = p ∧
      r.native_id = n ∧ r.last_seen = t ∧
      ∃ e ∈ (upsertStep kind p t st oi).entities, e.id = r.entity_id ∧
        e.provider_unique_id = some (puid kind p n) := by
  obtain ⟨r, hr, hp, hn, ht, e, he, hei, heu⟩ := h
  match oi with
  | none => exact ⟨r, hr, hp, hn, ht, e, he, hei, heu⟩
  | some inp0 =>
    by_cases hnn : inp0.nativeId = n
    · cases hg : jsGet st.idMap (puid kind p inp0.nativeId) with
      | some i0 =>
        rw [upsertStep_update kind p t st inp0 i0 hg]
        refine ⟨⟨p, i0, inp0.nativeId, inp0.extra, t⟩,
          (mem_upsertRel _ _ _).mpr (Or.inr rfl), rfl, hnn, rfl, ?_⟩
        obtain ⟨e0, he0, he0i, he0u⟩ := (hinv.2 _ i0).mp hg
        refine ⟨if e0.id = i0 then applyInput inp0 e0 else e0,
          (mem_updateEntities _ _ _ _).mpr ⟨e0, he0, rfl⟩, ?_, ?_⟩
        · rw [updateEntities_keeps_id st.entities i0 inp0 e0 he0, he0i]
        · rw [hnn] at he0u
          by_cases hc : e0.id = i0
          · rw [if_pos hc, applyInput_puid]; exact he0u
          · rw [if_neg hc]; exact he0u
      | none =>
        rw [upsertStep_insert kind p t st inp0 hg]
        refine ⟨⟨p, st.nextId, inp0.nativeId, inp0.extra, t⟩,
          (mem_upsertRel _ _ _).mpr (Or.inr rfl), rfl, hnn, rfl, ?_⟩
        refine ⟨newEntity (puid kind p inp0.nativeId) st.nextId inp0,
          List.mem_append.mpr (Or.inr (List.mem_singleton_self _)), rfl, ?_⟩
        rw [hnn]
        rfl
    · have hkeep : ∀ i0 ext,
          r ∈ upsertRel st.rels ⟨p, i0, inp0.nativeId, ext, t⟩ := by
        intro i0 ext
        refine (mem_upsertRel _ _ _).mpr (Or.inl ⟨hr, ?_⟩)
        rintro ⟨_, hnad⟩
        exact hnn (by rw [← hn]; exact hnad.symm)
      obtain ⟨e1, he1, he1i, he1u⟩ :=
        step_entities_mono kind p t st (some inp0) e he
      cases hg : jsGet st.idMap (puid kind p inp0.nativeId) with
      | some i0 =>
        rw [upsertStep_update kind p t st inp0 i0 hg] at he1 ⊢
        exact ⟨r, hkeep i0 inp0.extra, hp, hn, ht, e1, he1,
          by rw [he1i, hei], by rw [he1u, heu]⟩
      | none =>
        rw [upsertStep_insert kind p t st inp0 hg] at he1 ⊢
        exact ⟨r, hkeep st.nextId inp0.extra, hp, hn, ht, e1, he1,
          by rw [he1i, hei], by rw [he1u, heu]⟩

lemma run_rel_witness_persist (kind : String) (p t : Nat)
    (inputs : List (Option UpsertInput)) (st : PhaseState) (hinv : Inv st)
    (n : String)
    (h : ∃ r ∈ st.rels, r.provider_id = p ∧ r.native_id = n ∧
      r.last_seen = t ∧ ∃ e ∈ st.entities, e.id = r.entity_id ∧
        e.provider_unique_id = some (puid kind p n)) :
    ∃ r ∈ (runUpsert kind p t inputs st).rels, r.provider_id = p ∧
      r.native_id = n ∧ r.last_seen = t ∧
      ∃ e ∈ (runUpsert kind p t inputs st).entities, e.id = r.entity_id ∧
        e.provider_unique_id = some (puid kind p n) := by
  induction inputs generalizing st with
  | nil => exact h
  | cons oi rest ih =>
    exact ih (upsertStep kind p t st oi) (step_Inv kind p t st oi hinv)
      (step_rel_witness_persist kind p t st oi hinv n h)

lemma step_writes_rel (kind : String) (p t : Nat) (st : PhaseState)
    (inp0 : UpsertInput) (hinv : Inv st) :
    ∃ r ∈ (upsertStep kind p t st (some inp0)).rels, r.provider_id = p ∧
      r.native_id = inp0.nativeId ∧ r.last_seen = t ∧
      ∃ e ∈ (upsertStep kind p t st (some inp0)).entities,
        e.id = r.entity_id ∧
        e.provider_unique_id = some (puid kind p inp0.nativeId) := by
  cases hg : jsGet st.idMap (puid kind p inp0.nativeId) with
  | some i0 =>
    rw [upsertStep_update kind p t st inp0 i0 hg]
    refine ⟨⟨p, i0, inp0.nativeId, inp0.extra, t⟩,
      (mem_upsertRel _ _ _).mpr (Or.inr rfl), rfl, rfl, rfl, ?_⟩
    obtain ⟨e0, he0, he0i, he0u⟩ := (hinv.2 _ i0).mp hg
    refine ⟨if e0.id = i0 then applyInput inp0 e0 else e0,
      (mem_updateEntities _ _ _ _).mpr ⟨e0, he0, rfl⟩, ?_, ?_⟩
    · rw [updateEntities_keeps_id st.entities i0 inp0 e0 he0, he0i]
    · by_cases hc : e0.id = i0
      · rw [if_pos hc, applyInput_puid]; exact he0u
      · rw [if_neg hc]; exact he0u
  | none =>
    rw [upsertStep_insert kind p t st inp0 hg]
    exact ⟨⟨p, st.nextId, inp0.nativeId, inp0.extra, t⟩,
      (mem_upsertRel _ _ _).mpr (Or.inr rfl), rfl, rfl, rfl,
      newEntity (puid kind p inp0.nativeId) st.nextId inp0,
      List.mem_append.mpr (Or.inr (List.mem_singleton_self _)), rfl, rfl⟩

lemma run_rel_touch (kind : String) (p t : Nat)
    (inputs : List (Option UpsertInput)) (st : PhaseState) (hinv : Inv st)
    (inp : UpsertInput) (hmem : some inp ∈ inputs) :
    ∃ r ∈ (runUpsert kind p t inputs st).rels, r.provider_id = p ∧
      r.native_id = inp.nativeId ∧ r.last_seen = t ∧
      ∃ e ∈ (runUpsert kind p t inputs st).entities, e.id = r.entity_id ∧
        e.provider_unique_id = some (puid kind p inp.nativeId) := by
  induction inputs generalizing st with
  | nil => cases hmem
  | cons oi rest ih =>
    rcases List.mem_cons.mp hmem with hhd | htl
    · subst hhd
      rw [runUpsert_cons]
      exact run_rel_witness_persist kind p t rest _
        (step_Inv kind p t st (some inp) hinv) inp.nativeId
        (step_writes_rel kind p t st inp hinv)
    · exact ih (upsertStep kind p t st oi)
        (step_Inv kind p t st oi hinv) htl

/-! ## The second run of one upsert phase is stable -/

lemma rerun_kind_stable (kind : String) (p t1 t2 : Nat)
    (inputs : List (Option UpsertInput)) (es0 : List Entity)
    (rels0 : List Rel) (next0 : Nat) (hwf : WFE es0 next0)
    (hstale : ∀ r ∈ rels0, r.last_seen < t1)
    (st1 : PhaseState)
    (hst1 : st1 = runUpsert kind p t1 inputs
      ⟨es0, preloadIdMap es0, rels0, next0⟩)
    (rels1 : List Rel) (hrels1 : rels1 = reapRels p t1 st1.rels)
    (es1 : List Entity) (hes1 : es1 = keepReferenced rels1 st1.entities)
    (st2 : PhaseState)
    (hst2 : st2 = runUpsert kind p t2 inputs
      ⟨es1, preloadIdMap es1, rels1, st1.nextId⟩) :
    st2.entities = es1 ∧
      keepReferenced (reapRels p t2 st2.rels) st2.entities = es1 := by
  subst hst2 hes1 hrels1 hst1
  set init1 : PhaseState := ⟨es0, preloadIdMap es0, rels0, next0⟩ with hinit1
  set st1 := runUpsert kind p t1 inputs init1 with hst1
  set rels1 := reapRels p t1 st1.rels with hrels1
  set es1 := keepReferenced rels1 st1.entities with hes1
  set init2 : PhaseState := ⟨es1, preloadIdMap es1, rels1, st1.nextId⟩
    with hinit2
  set st2 := runUpsert kind p t2 inputs init2 with hst2
  have hinv0 : Inv init1 := ⟨hwf, mapSync_preload es0 next0 hwf⟩
  have hinv1 : Inv st1 := run_Inv kind p t1 inputs init1 hinv0
  have hwf1 : WFE st1.entities st1.nextId := hinv1.1
  have hsub1 : ∀ e ∈ es1, e ∈ st1.entities := by
    intro e he
    exact ((mem_keepReferenced rels1 st1.entities e).mp he).1
  have hcov : ∀ inp, some inp ∈ inputs →
      ∃ e ∈ es1, e.provider_unique_id = some (puid kind p inp.nativeId) := by
    intro inp hm
    obtain ⟨r, hr, hp, hn, hts, e, he, hei, heu⟩ :=
      run_rel_touch kind p t1 inputs init1 hinv0 inp hm
    have hrr : r ∈ rels1 := by
      rw [hrels1]
      exact (mem_reapRels p t1 st1.rels r).mpr
        ⟨hr, fun hc => absurd (hts ▸ hc.2) (lt_irrefl t1)⟩
    have hee : e ∈ es1 := by
      rw [hes1]
      exact (mem_keepReferenced rels1 st1.entities e).mpr
        ⟨he, r, hrr, hei.symm⟩
    exact ⟨e, hee, heu⟩
  have hwfes1 : WFE es1 st1.nextId :=
    WFE_sublist st1.entities es1 st1.nextId hsub1 hwf1
  have hsync1 : mapSync (preloadIdMap es1) es1 :=
    mapSync_preload es1 st1.nextId hwfes1
  have hinv2 : Inv init2 := ⟨hwfes1, hsync1⟩
  have hni : ∀ inp, some inp ∈ inputs →
      ∃ i, jsGet init2.idMap (puid kind p inp.nativeId) = some i := by
    intro inp hm
    obtain ⟨e, he, heu⟩ := hcov inp hm
    exact ⟨e.id, (hsync1 _ e.id).mpr ⟨e, he, rfl, heu⟩⟩
  obtain ⟨hmap2, hnext2, hent2⟩ :=
    run_no_insert kind p t2 inputs init2 hni
  have hA : st2.entities = es1 := by
    rw [← hst2] at hent2
    rw [hent2]
    show replayU kind p init2.idMap inputs init2.entities = es1
    rw [replayU_char]
    have hfix : ∀ e ∈ es1,
        (match lastInputFor kind p init2.idMap inputs e.id with
        | some inp => applyInput inp e
        | none => e) = e := by
      intro e he
      rw [lastInputFor_eq_lastTouch kind p init2.idMap es1 st1.nextId inputs
        e hwfes1 hsync1 he]
      cases hpu : e.provider_unique_id with
      | none => rfl
      | some u =>
        show (match lastTouch kind p inputs u with
          | some inp => applyInput inp e
          | none => e) = e
        cases hlt : lastTouch kind p inputs u with
        | none => rfl
        | some inp =>
          exact run_fields_lastTouch kind p t1 inputs init1 hinv0 e
            (hsub1 e he) u inp hpu hlt
    calc (init2.entities).map (fun e =>
          match lastInputFor kind p init2.idMap inputs e.id with
          | some inp => applyInput inp e
          | none => e) =
        es1.map (fun e => e) := List.map_congr_left hfix
      _ = es1 := List.map_id' es1
  have hB : ∀ e ∈ es1, ∃ r ∈ reapRels p t2 st2.rels, r.entity_id = e.id := by
    intro e he
    obtain ⟨he_st1, r, hr1, hrid⟩ :=
      (mem_keepReferenced rels1 st1.entities e).mp he
    by_cases hpv : r.provider_id = p
    · obtain ⟨hr1s, hnot⟩ := (mem_reapRels p t1 st1.rels r).mp hr1
      have hge : ¬ r.last_seen < t1 := fun hc => hnot ⟨hpv, hc⟩
      rcases run_rels_origin kind p t1 inputs init1 hinv0 r hr1s with
        h0 | ⟨_, hts, inp, hmem, hnat, e0, he0, he0i, he0u⟩
      · exact absurd (hstale r h0) hge
      · have heq : e0 = e :=
          hwf1.2.1 e0 he0 e he_st1 (he0i.trans hrid)
        obtain ⟨r2, hr2, hr2p, hr2n, hr2t, e2, he2, he2i, he2u⟩ :=
          run_rel_touch kind p t2 inputs init2 hinv2 inp hmem
        have he2e1 : e2 ∈ es1 := by
          rw [← hA]
          exact he2
        have hePU : e.provider_unique_id =
            some (puid kind p inp.nativeId) := by
          rw [← heq]
          exact he0u
        have he2e : e2 = e :=
          hwfes1.2.2 e2 he2e1 e he _ he2u hePU
        refine ⟨r2, (mem_reapRels p t2 st2.rels r2).mpr
          ⟨hr2, fun hc => absurd (hr2t ▸ hc.2) (lt_irrefl t2)⟩, ?_⟩
        rw [← he2i, he2e]
    · have hr2 : r ∈ st2.rels := by
        rw [hst2]
        exact run_rels_keep_nonp kind p t2 inputs init2 r hr1 hpv
      exact ⟨r, (mem_reapRels p t2 st2.rels r).mpr
        ⟨hr2, fun hc => hpv hc.1⟩, hrid⟩
  refine ⟨hA, ?_⟩
  have hall : keepReferenced (reapRels p t2 st2.rels) st2.entities =
      st2.entities := by
    rw [hA]
    apply List.filter_eq_self.mpr
    intro e he
    obtain ⟨r, hr, hrid⟩ := hB e he
    exact List.any_eq_true.mpr ⟨r, hr, beq_iff_eq.mpr hrid⟩
  rw [hall, hA]

lemma run_resolves_fixed (kind : String) (p t : Nat)
    (inputs : List (Option UpsertInput)) (st : PhaseState) (u : String)
    (i0 : Nat) (hmap : jsGet st.idMap u = some i0)
    (hids : ∀ x ∈ st.entities, x.provider_unique_id = some u → x.id = i0) :
    ∀ x ∈ (runUpsert kind p t inputs st).entities,
      x.provider_unique_id = some u → x.id = i0 := by
  induction inputs generalizing st with
  | nil => exact hids
  | cons oi rest ih =>
    refine ih (upsertStep kind p t st oi)
      (step_map_mono kind p t st oi u i0 hmap) ?_
    match oi with
    | none => exact hids
    | some inp =>
      cases hg : jsGet st.idMap (puid kind p inp.nativeId) with
      | some j =>
        rw [upsertStep_update kind p t st inp j hg]
        intro x hx hxu
        obtain ⟨e, he, rfl⟩ := (mem_updateEntities st.entities j inp x).mp hx
        rw [updateEntities_keeps_id st.entities j inp e he]
        refine hids e he ?_
        by_cases hc : e.id = j
        · rw [if_pos hc, applyInput_puid] at hxu; exact hxu
        · rw [if_neg hc] at hxu; exact hxu
      | none =>
        rw [upsertStep_insert kind p t st inp hg]
        intro x hx hxu
        rcases List.mem_append.mp hx with hxs | hxn
        · exact hids x hxs hxu
        · rw [List.mem_singleton.mp hxn] at hxu
          obtain rfl : puid kind p inp.nativeId = u := Option.some.inj hxu
          rw [hg] at hmap
          cases hmap

/-- C3: the providerUniqueId computed for a (kind, providerId, nativeId)
triple is a fixed pure function of the triple whose movie values never
collide with its series values; within a run over any store whose id map is
in sync, every entity carrying an already-present providerUniqueId keeps the
id of the pre-existing entity carrying it (so a second entity is never
created for an already-resolved key), and every observed triple resolves its
relation to an entity carrying exactly that providerUniqueId. -/
theorem identityStability :
    (∀ p q : Nat, ∀ n m : String, puid "movie" p n ≠ puid "series" q m) ∧
    (∀ kind, ∀ p t : Nat, ∀ inputs, ∀ st : PhaseState, ∀ e0 : Entity,
      ∀ u : String, Inv st → e0 ∈ st.entities →
      e0.provider_unique_id = some u →
      ∀ x ∈ (runUpsert kind p t inputs st).entities,
        x.provider_unique_id = some u → x.id = e0.id) ∧
    (∀ kind, ∀ p t : Nat, ∀ inputs, ∀ st : PhaseState, ∀ inp : UpsertInput,
      Inv st → some inp ∈ inputs →
      ∃ r ∈ (runUpsert kind p t inputs st).rels, r.provider_id = p ∧
        r.native_id = inp.nativeId ∧ r.last_seen = t ∧
        ∃ e ∈ (runUpsert kind p t inputs st).entities, e.id = r.entity_id ∧
          e.provider_unique_id = some (puid kind p inp.nativeId)) := by
  refine ⟨?_, ?_, ?_⟩
  · intro p q n m h
    have hd := congrArg String.data h
    simp only [puid, String.data_append] at hd
    simp at hd
  · intro kind p t inputs st e0 u hinv he0 hu
    refine run_resolves_fixed kind p t inputs st u e0.id
      ((hinv.2 u e0.id).mpr ⟨e0, he0, rfl, hu⟩) ?_
    intro x hx hxu
    rw [hinv.1.2.2 x hx e0 he0 u hxu hu]
  · intro kind p t inputs st inp hinv hmem
    exact run_rel_touch kind p t inputs st hinv inp hmem

/-- Witness for C3: a second observation of the triple (movie, 1, "9")
resolves to the pre-existing entity id 7. -/
theorem identityStability_w :
    ((⟨7, some "New", none, none, none, some "VOD", some "movie_1_9"⟩ :
      Entity)).id =
      ((⟨7, some "Old", none, none, none, some "VOD", some "movie_1_9"⟩ :
        Entity)).id :=
  identityStability.2.1 "movie" 1 5
    [some ⟨"9", some "New", none, none, none, "VOD", some "mp4"⟩]
    ⟨[⟨7, some "Old", none, none, none, some "VOD", some "movie_1_9"⟩],
      preloadIdMap
        [⟨7, some "Old", none, none, none, some "VOD", some "movie_1_9"⟩],
      [], 8⟩
    ⟨7, some "Old", none, none, none, some "VOD", some "movie_1_9"⟩
    "movie_1_9"
    ⟨⟨by decide, by decide, by
        intro a ha b hb u hau hbu
        rw [List.mem_singleton.mp ha, List.mem_singleton.mp hb]⟩,
      mapSync_preload
        [⟨7, some "Old", none, none, none, some "VOD", some "movie_1_9"⟩] 8
        ⟨by decide, by decide, by
          intro a ha b hb u hau hbu
          rw [List.mem_singleton.mp ha, List.mem_singleton.mp hb]⟩⟩
    (by decide) (by decide)
    ⟨7, some "New", none, none, none, some "VOD", some "movie_1_9"⟩
    (by decide) (by decide)

/-! ## Lemmas: a fault-free run is the pure pipeline -/

lemma catStep_snd_indep (l : List Category)
    (x y m : List (String × String)) :
    (l.foldl catStep (x, m)).2 = (l.foldl catStep (y, m)).2 := by
  induction l generalizing x y m with
  | nil => rfl
  | cons c l ih =>
    rw [List.foldl_cons, List.foldl_cons]
    unfold catStep
    by_cases h : c.category_id ≠ "" ∧ c.category_name ≠ ""
    · rw [if_pos h, if_pos h]
      exact ih _ _ _
    · rw [if_neg h, if_neg h]
      exact ih _ _ _

lemma categoriesSection_noFail (vc sc : Option (List Category)) (s : Store) :
    categoriesSection (.ok vc) (.ok sc) noFail s =
      some (catStore vc sc s, cmPure vc sc) := by
  have h2 := catStep_snd_indep
    ((allCategoriesOf (vc.getD []) (sc.getD [])).map Prod.snd)
    s.vodCategories [] []
  simp only [categoriesSection, runRows_noFail, Option.map_some']
  rw [catStore, cmPure, h2]

lemma moviesSection_noFail_store (mv : Option (List MovieRow))
    (cm : List (String × String)) (p t : Nat) (s : Store) :
    (moviesSection (.ok mv) noFail cm p t s).1 = moviesStore cm p t mv s := by
  cases mv with
  | none => rfl
  | some rows =>
    show (match moviesApply cm p t noFail rows s with
      | some s2 => (s2, [((Ph.movies), Sev.info), ((Ph.movies), Sev.info)])
      | none => (s, [((Ph.movies), Sev.info), ((Ph.movies), Sev.error)])).1 = _
    rw [moviesApply, runRows_noFail]
    rfl

lemma seriesSection_noFail_store (sr : Option (List SeriesRow))
    (cm : List (String × String)) (p t : Nat) (s : Store) :
    (seriesSection (.ok sr) noFail cm p t s).1 = seriesStore cm p t sr s := by
  cases sr with
  | none => rfl
  | some rows =>
    show (match seriesApply cm p t noFail rows s with
      | some s2 => (s2, [((Ph.series), Sev.info), ((Ph.series), Sev.info)])
      | none => (s, [((Ph.series), Sev.info), ((Ph.series), Sev.error)])).1 = _
    rw [seriesApply, runRows_noFail]
    rfl

lemma refreshVod_pure_store (vc sc : Option (List Category))
    (mv : Option (List MovieRow)) (sr : Option (List SeriesRow))
    (p t : Nat) (s0 : Store) :
    (refreshVod ⟨.ok vc, .ok sc, .ok mv, .ok sr⟩ noFaults p t s0).1 =
      refreshStore vc sc mv sr p t s0 := by
  have hcat := categoriesSection_noFail vc sc s0
  have hc1 : noFaults.categoriesFail = noFail := rfl
  have hc2 : noFaults.moviesFail = noFail := rfl
  have hc3 : noFaults.seriesFail = noFail := rfl
  have hc4 : noFaults.cleanupFail = false := rfl
  simp only [refreshVod, hc1, hc2, hc3, hc4, hcat]
  rw [moviesSection_noFail_store, seriesSection_noFail_store]
  rfl

lemma episodes_rerun_stable (p t1 t2 : Nat) (ids : List Nat)
    (rels0 : List Rel) (hstale : ∀ r ∈ rels0, r.last_seen < t1) :
    keepReferencedIds (reapRels p t2 (reapRels p t1 rels0))
      (keepReferencedIds (reapRels p t1 rels0) ids) =
      keepReferencedIds (reapRels p t1 rels0) ids := by
  apply List.filter_eq_self.mpr
  intro i hi
  obtain ⟨_, r, hr, hrid⟩ :=
    (mem_keepReferencedIds (reapRels p t1 rels0) ids i).mp hi
  obtain ⟨hr0, hnot⟩ := (mem_reapRels p t1 rels0 r).mp hr
  have hpv : r.provider_id ≠ p := fun hc => hnot ⟨hc, hstale r hr0⟩
  have hr2 : r ∈ reapRels p t2 (reapRels p t1 rels0) :=
    (mem_reapRels p t2 _ r).mpr ⟨hr, fun hc => hpv hc.1⟩
  exact List.any_eq_true.mpr ⟨r, hr2, beq_iff_eq.mpr hrid⟩

/-- C4: against sane starting data (well-formed entity tables and no
relation stamped at or after the first scan start), running the whole
reconciliation a second time over the identical feed leaves the movie,
series and episode tables exactly as the first run left them: no rows are
inserted, every entity keeps its internal id, and every field value is
unchanged. -/
theorem idempotentRerun (vc sc : Option (List Category))
    (mv : Option (List MovieRow)) (sr : Option (List SeriesRow))
    (p t1 t2 : Nat) (s0 : Store)
    (hwm : WFE s0.movies s0.nextMovieId)
    (hws : WFE s0.series s0.nextSeriesId)
    (hrm : ∀ r ∈ s0.movieRels, r.last_seen < t1)
    (hrs : ∀ r ∈ s0.seriesRels, r.last_seen < t1)
    (hre : ∀ r ∈ s0.episodeRels, r.last_seen < t1) :
    (refreshVod ⟨.ok vc, .ok sc, .ok mv, .ok sr⟩ noFaults p t2
        (refreshVod ⟨.ok vc, .ok sc, .ok mv, .ok sr⟩ noFaults p t1
          s0).1).1.movies =
      (refreshVod ⟨.ok vc, .ok sc, .ok mv, .ok sr⟩ noFaults p t1
        s0).1.movies ∧
    (refreshVod ⟨.ok vc, .ok sc, .ok mv, .ok sr⟩ noFaults p t2
        (refreshVod ⟨.ok vc, .ok sc, .ok mv, .ok sr⟩ noFaults p t1
          s0).1).1.series =
      (refreshVod ⟨.ok vc, .ok sc, .ok mv, .ok sr⟩ noFaults p t1
        s0).1.series ∧
    (refreshVod ⟨.ok vc, .ok sc, .ok mv, .ok sr⟩ noFaults p t2
        (refreshVod ⟨.ok vc, .ok sc, .ok mv, .ok sr⟩ noFaults p t1
          s0).1).1.episodes =
      (refreshVod ⟨.ok vc, .ok sc, .ok mv, .ok sr⟩ noFaults p t1
        s0).1.episodes := by
  rw [refreshVod_pure_store vc sc mv sr p t1 s0,
    refreshVod_pure_store vc sc mv sr p t2 _]
  set cm := cmPure vc sc with hcm
  set Im := movieInputsOf cm mv with hIm
  set Is := seriesInputsOf cm sr with hIs
  set s1 := refreshStore vc sc mv sr p t1 s0 with hs1
  set X1 := runUpsert "movie" p t1 Im
    ⟨s0.movies, preloadIdMap s0.movies, s0.movieRels, s0.nextMovieId⟩
    with hX1
  set Y1 := runUpsert "series" p t1 Is
    ⟨s0.series, preloadIdMap s0.series, s0.seriesRels, s0.nextSeriesId⟩
    with hY1
  obtain ⟨hAm, hBm⟩ := rerun_kind_stable "movie" p t1 t2 Im s0.movies
    s0.movieRels s0.nextMovieId hwm hrm X1 rfl
    s1.movieRels rfl s1.movies rfl
    (runUpsert "movie" p t2 Im
      ⟨s1.movies, preloadIdMap s1.movies, s1.movieRels, s1.nextMovieId⟩)
    rfl
  obtain ⟨hAs, hBs⟩ := rerun_kind_stable "series" p t1 t2 Is s0.series
    s0.seriesRels s0.nextSeriesId hws hrs Y1 rfl
    s1.seriesRels rfl s1.series rfl
    (runUpsert "series" p t2 Is
      ⟨s1.series, preloadIdMap s1.series, s1.seriesRels, s1.nextSeriesId⟩)
    rfl
  refine ⟨hBm, hBs, ?_⟩
  exact episodes_rerun_stable p t1 t2 s0.episodes s0.episodeRels hre

/-- Witness for C4: one movie row synced twice into an empty store. -/
theorem idempotentRerun_w :
    (refreshVod
        ⟨.ok none, .ok none,
          .ok (some [⟨some "A Movie (2001)", none, none, some "10", none,
            some "5", none⟩]), .ok none⟩ noFaults 1 2
        (refreshVod
          ⟨.ok none, .ok none,
            .ok (some [⟨some "A Movie (2001)", none, none, some "10", none,
              some "5", none⟩]), .ok none⟩ noFaults 1 1
          ⟨[], [], [], [], [], [], [], 0, 0⟩).1).1.movies =
      (refreshVod
        ⟨.ok none, .ok none,
          .ok (some [⟨some "A Movie (2001)", none, none, some "10", none,
            some "5", none⟩]), .ok none⟩ noFaults 1 1
        ⟨[], [], [], [], [], [], [], 0, 0⟩).1.movies ∧
    (refreshVod
        ⟨.ok none, .ok none,
          .ok (some [⟨some "A Movie (2001)", none, none, some "10", none,
            some "5", none⟩]), .ok none⟩ noFaults 1 2
        (refreshVod
          ⟨.ok none, .ok none,
            .ok (some [⟨some "A Movie (2001)", none, none, some "10", none,
              some "5", none⟩]), .ok none⟩ noFaults 1 1
          ⟨[], [], [], [], [], [], [], 0, 0⟩).1).1.series =
      (refreshVod
        ⟨.ok none, .ok none,
          .ok (some [⟨some "A Movie (2001)", none, none, some "10", none,
            some "5", none⟩]), .ok none⟩ noFaults 1 1
        ⟨[], [], [], [], [], [], [], 0, 0⟩).1.series ∧
    (refreshVod
        ⟨.ok none, .ok none,
          .ok (some [⟨some "A Movie (2001)", none, none, some "10", none,
            some "5", none⟩]), .ok none⟩ noFaults 1 2
        (refreshVod
          ⟨.ok none, .ok none,
            .ok (some [⟨some "A Movie (2001)", none, none, some "10", none,
              some "5", none⟩]), .ok none⟩ noFaults 1 1
          ⟨[], [], [], [], [], [], [], 0, 0⟩).1).1.episodes =
      (refreshVod
        ⟨.ok none, .ok none,
          .ok (some [⟨some "A Movie (2001)", none, none, some "10", none,
            some "5", none⟩]), .ok none⟩ noFaults 1 1
        ⟨[], [], [], [], [], [], [], 0, 0⟩).1.episodes :=
  idempotentRerun none none
    (some [⟨some "A Movie (2001)", none, none, some "10", none, some "5",
      none⟩]) none 1 1 2 ⟨[], [], [], [], [], [], [], 0, 0⟩
    ⟨fun e he => (by cases he), fun a ha => (by cases ha),
      fun a ha => (by cases ha)⟩
    ⟨fun e he => (by cases he), fun a ha => (by cases ha),
      fun a ha => (by cases ha)⟩
    (fun r hr => (by cases hr)) (fun r hr => (by cases hr))
    (fun r hr => (by cases hr))

end ViniPlay
